import Mathlib

/-!
Verification of the controller core of the ciao cluster orchestrator
(datastore, tenant IP allocator, external IP pool manager, CNCI manager,
storage-attachment reconciliation) against its natural-language
specification.  Each Go data structure is shallowly embedded: Go maps
become association lists with distinct keys, Go slices become `List`,
Go `int` arithmetic becomes `Int`/`Nat`, fallible or panicking paths
become `Option`/`Except`.  Definitions mirror the Go source
(`datastore.go` and the CNCI manager file) statement by statement.
-/

/-! ## Generic association-list maps (Go `map[k]v`)

A Go map is modelled as an association list whose keys are distinct.
`alookup` is map indexing, `ainsert` is `m[k] = v` (replace in place or
append), `aerase` is `delete(m, k)`. -/

section AssocMap

variable {κ ν : Type} [DecidableEq κ]

def alookup : List (κ × ν) → κ → Option ν
  | [], _ => none
  | (k', v) :: r, k => if k' = k then some v else alookup r k

def ainsert : List (κ × ν) → κ → ν → List (κ × ν)
  | [], k, v => [(k, v)]
  | (k', v') :: r, k, v => if k' = k then (k, v) :: r else (k', v') :: ainsert r k v

def aerase : List (κ × ν) → κ → List (κ × ν)
  | [], _ => []
  | (k', v') :: r, k => if k' = k then aerase r k else (k', v') :: aerase r k

@[simp] theorem alookup_nil (k : κ) : alookup ([] : List (κ × ν)) k = none := rfl

theorem ainsert_cons_self (pk : κ) (pv v : ν) (r : List (κ × ν)) :
    ainsert ((pk, pv) :: r) pk v = (pk, v) :: r := by
  simp [ainsert]

theorem ainsert_cons_ne {pk k : κ} (h : pk ≠ k) (pv v : ν) (r : List (κ × ν)) :
    ainsert ((pk, pv) :: r) k v = (pk, pv) :: ainsert r k v := by
  simp [ainsert, h]

theorem aerase_cons_self (pk : κ) (pv : ν) (r : List (κ × ν)) :
    aerase ((pk, pv) :: r) pk = aerase r pk := by
  simp [aerase]

theorem aerase_cons_ne {pk k : κ} (h : pk ≠ k) (pv : ν) (r : List (κ × ν)) :
    aerase ((pk, pv) :: r) k = (pk, pv) :: aerase r k := by
  simp [aerase, h]

theorem alookup_cons_self (pk : κ) (pv : ν) (r : List (κ × ν)) :
    alookup ((pk, pv) :: r) pk = some pv := by
  simp [alookup]

theorem alookup_cons_ne {pk k : κ} (h : pk ≠ k) (pv : ν) (r : List (κ × ν)) :
    alookup ((pk, pv) :: r) k = alookup r k := by
  simp [alookup, h]

theorem alookup_ainsert (l : List (κ × ν)) (k k' : κ) (v : ν) :
    alookup (ainsert l k v) k' = if k = k' then some v else alookup l k' := by
  induction l with
  | nil =>
    by_cases h : k = k' <;> simp [ainsert, alookup, h]
  | cons p r ih =>
    obtain ⟨pk, pv⟩ := p
    by_cases h1 : pk = k <;> by_cases h2 : pk = k' <;> by_cases h3 : k = k' <;>
      simp_all [ainsert, alookup]

theorem alookup_aerase (l : List (κ × ν)) (k k' : κ) :
    alookup (aerase l k) k' = if k = k' then none else alookup l k' := by
  induction l with
  | nil => simp [aerase]
  | cons p r ih =>
    obtain ⟨pk, pv⟩ := p
    by_cases h1 : pk = k <;> by_cases h2 : pk = k' <;> by_cases h3 : k = k' <;>
      simp_all [aerase, alookup]

def akeys (l : List (κ × ν)) : List κ := l.map Prod.fst

theorem alookup_eq_none_of_not_mem_keys {l : List (κ × ν)} {k : κ}
    (h : k ∉ akeys l) : alookup l k = none := by
  induction l with
  | nil => rfl
  | cons p r ih =>
    obtain ⟨pk, pv⟩ := p
    simp only [akeys, List.map_cons, List.mem_cons] at h
    push_neg at h
    have hpk : ¬ pk = k := fun hh => h.1 hh.symm
    simp [alookup, hpk, ih (by simpa [akeys] using h.2)]

theorem mem_keys_of_alookup_some {l : List (κ × ν)} {k : κ} {v : ν}
    (h : alookup l k = some v) : k ∈ akeys l := by
  induction l with
  | nil => simp [alookup] at h
  | cons p r ih =>
    obtain ⟨pk, pv⟩ := p
    by_cases hk : pk = k
    · simp [akeys, hk]
    · simp only [alookup, if_neg hk] at h
      simp [akeys]
      right
      simpa [akeys] using ih h

theorem mem_keys_ainsert {l : List (κ × ν)} {k x : κ} (v : ν)
    (h : x ∈ akeys (ainsert l k v)) : x ∈ akeys l ∨ x = k := by
  induction l with
  | nil => simpa [ainsert, akeys] using h
  | cons p r ih =>
    obtain ⟨pk, pv⟩ := p
    by_cases h1 : pk = k
    · subst h1
      rw [ainsert_cons_self] at h
      simp only [akeys, List.map_cons, List.mem_cons] at h ⊢
      rcases h with h | h
      · exact Or.inl (Or.inl h)
      · exact Or.inl (Or.inr h)
    · rw [ainsert_cons_ne h1] at h
      simp only [akeys, List.map_cons, List.mem_cons] at h ⊢
      rcases h with h | h
      · exact Or.inl (Or.inl h)
      · rcases ih (by simpa [akeys] using h) with h' | h'
        · exact Or.inl (Or.inr (by simpa [akeys] using h'))
        · exact Or.inr h'

theorem mem_keys_aerase {l : List (κ × ν)} {k x : κ}
    (h : x ∈ akeys (aerase l k)) : x ∈ akeys l := by
  induction l with
  | nil => simpa [aerase] using h
  | cons p r ih =>
    obtain ⟨pk, pv⟩ := p
    by_cases h1 : pk = k
    · subst h1
      rw [aerase_cons_self] at h
      simp only [akeys, List.map_cons, List.mem_cons]
      exact Or.inr (by simpa [akeys] using ih h)
    · rw [aerase_cons_ne h1] at h
      simp only [akeys, List.map_cons, List.mem_cons] at h ⊢
      rcases h with h | h
      · exact Or.inl h
      · exact Or.inr (by simpa [akeys] using ih (by simpa [akeys] using h))

theorem nodup_keys_ainsert {l : List (κ × ν)} (k : κ) (v : ν)
    (h : (akeys l).Nodup) : (akeys (ainsert l k v)).Nodup := by
  induction l with
  | nil => simp [ainsert, akeys]
  | cons p r ih =>
    obtain ⟨pk, pv⟩ := p
    simp only [akeys, List.map_cons, List.nodup_cons] at h
    by_cases h1 : pk = k
    · subst h1
      rw [ainsert_cons_self]
      simp only [akeys, List.map_cons, List.nodup_cons]
      exact ⟨by simpa [akeys] using h.1, by simpa [akeys] using h.2⟩
    · rw [ainsert_cons_ne h1]
      simp only [akeys, List.map_cons, List.nodup_cons]
      constructor
      · intro hmem
        rcases mem_keys_ainsert v (by simpa [akeys] using hmem) with h' | h'
        · exact h.1 (by simpa [akeys] using h')
        · exact h1 h'
      · simpa [akeys] using ih (by simpa [akeys] using h.2)

theorem nodup_keys_aerase {l : List (κ × ν)} (k : κ)
    (h : (akeys l).Nodup) : (akeys (aerase l k)).Nodup := by
  induction l with
  | nil => exact h
  | cons p r ih =>
    obtain ⟨pk, pv⟩ := p
    simp only [akeys, List.map_cons, List.nodup_cons] at h
    by_cases h1 : pk = k
    · subst h1
      rw [aerase_cons_self]
      exact ih (by simpa [akeys] using h.2)
    · rw [aerase_cons_ne h1]
      simp only [akeys, List.map_cons, List.nodup_cons]
      constructor
      · intro hmem
        exact h.1 (by simpa [akeys] using mem_keys_aerase (by simpa [akeys] using hmem))
      · simpa [akeys] using ih (by simpa [akeys] using h.2)

/-- With distinct keys, list membership coincides with lookup. -/
theorem alookup_eq_some_of_mem {l : List (κ × ν)} {k : κ} {v : ν}
    (hnd : (akeys l).Nodup) (h : (k, v) ∈ l) : alookup l k = some v := by
  induction l with
  | nil => simp at h
  | cons p r ih =>
    obtain ⟨pk, pv⟩ := p
    simp only [akeys, List.map_cons, List.nodup_cons] at hnd
    rcases List.mem_cons.mp h with h | h
    · have h1 : k = pk := congrArg Prod.fst h
      have h2 : v = pv := congrArg Prod.snd h
      subst h1
      subst h2
      simp [alookup]
    · have hk : ¬ pk = k := by
        intro hh
        subst hh
        exact hnd.1 (by simpa [akeys] using ⟨v, h⟩)
      simp [alookup, hk, ih (by simpa [akeys] using hnd.2) h]

theorem mem_of_alookup_eq_some {l : List (κ × ν)} {k : κ} {v : ν}
    (h : alookup l k = some v) : (k, v) ∈ l := by
  induction l with
  | nil => simp [alookup] at h
  | cons p r ih =>
    obtain ⟨pk, pv⟩ := p
    by_cases hk : pk = k
    · subst hk
      rw [alookup_cons_self] at h
      have : pv = v := Option.some.injEq .. |>.mp h
      subst this
      simp
    · rw [alookup_cons_ne hk] at h
      simp [ih h]

end AssocMap

/-! ## Tenant IP allocator (`AllocateTenantIP` / `ReleaseTenantIP`)

From `datastore.go`.  The tenant's network is
`network map[int]map[int]bool` (subnet key 16-bit int built from IP
bytes 1-2, then host byte -> true) together with the slice
`subnets []int`.  A host map only ever stores `true` values, so each
inner map is modelled as the list of its keys (insertion at the end,
like successive Go map inserts). -/

abbrev HostSet := List Nat

abbrev Network := List (Nat × HostSet)

structure TenantNet where
  subnetBits : Nat
  network : Network
  subnets : List Nat
deriving DecidableEq, Repr

/-- `len(network[k])` — Go reads of a missing key see the nil map, length 0. -/
def hostCount (n : Network) (k : Nat) : Nat := ((alookup n k).getD []).length

/-- `getMaxHost`: parse `172.16.0.0/bits` (fails for bits > 32), then
`maxHosts := (1 << (32-ones)) - 3`, rejecting non-positive results. -/
def getMaxHost (bits : Nat) : Option Nat :=
  if bits ≤ 32 then
    let m : Int := 2 ^ (32 - bits) - 3
    if m ≤ 0 then none else some m.toNat
  else none

/-- The subnet-selection loop of `AllocateTenantIP`:
`for _, k := range subnets { if len(network[k]) < maxHosts { subnetInt = uint16(k) } }`
over the ascending-sorted subnet list, starting from the sentinel 0.
There is no `break`, so the LAST subnet with spare capacity wins. -/
def pickSubnet (n : Network) (sorted : List Nat) (maxHosts : Nat) : Nat :=
  sorted.foldl (fun acc k => if hostCount n k < maxHosts then k else acc) 0

/-- The new-subnet scan: start at bytes `[16,0]` (= 4096), skip keys already
in `network`, give up past `[31,255]` (= 8191). -/
def firstFreeSubnet (n : Network) : Option Nat :=
  (List.range' 4096 4096).find? (fun k => (alookup n k).isNone)

/-- The host scan: host bytes from 2 up to 255, first byte whose map entry
is `false` (i.e. absent). -/
def firstFreeHost (hosts : HostSet) : Option Nat :=
  (List.range' 2 254).find? (fun r => ¬ hosts.contains r)

/-- `AllocateTenantIP` (cache part; the persistent `claimTenantIP` and the
CNCI `WaitForActive` are modelled as succeeding).  Returns the new tenant
network state, the chosen subnet key and host byte; `none` models the
error returns (invalid tenant config, out of subnets, out of hosts) and
the Go panic of writing to a nil host map when a listed subnet is missing
from `network`. -/
def AllocateTenantIP (t : TenantNet) : Option (TenantNet × Nat × Nat) := do
  let maxHosts ← getMaxHost t.subnetBits
  -- sort.Ints sorts the tenant's subnet slice in place
  let sorted := List.insertionSort (· ≤ ·) t.subnets
  let p := pickSubnet t.network sorted maxHosts
  if p = 0 then
    let k ← firstFreeSubnet t.network
    -- network[k] = make(map[int]bool); subnets = append(subnets, k)
    let r ← firstFreeHost []
    some ({ t with network := ainsert t.network k [r], subnets := sorted ++ [k] }, k, r)
  else
    let hosts ← alookup t.network p
    let r ← firstFreeHost hosts
    some ({ t with network := ainsert t.network p (hosts ++ [r]), subnets := sorted }, p, r)

/-- The IPv4 address `AllocateTenantIP` returns: `172.<b1>.<b2>.<host>`. -/
def allocatedIP (sn host : Nat) : Nat × Nat × Nat × Nat :=
  (172, sn / 256, sn % 256, host)

/-- `ReleaseTenantIP` (cache part) for IP bytes `172.b1.b2.b3`:
clear `network[i][b3]` for `i = b1*256+b2`; if the host map is now empty
(or the subnet was absent - Go `len(nil) == 0`), delete the subnet from
the network map and cut it from the subnet slice via
`append(subnets[:i], subnets[i+1:]...)` — with `i` the subnet VALUE, not
its index.  A slice bound past `len(subnets)` is a Go runtime panic,
modelled as `none`. -/
def ReleaseTenantIP (t : TenantNet) (b1 b2 b3 : Nat) : Option TenantNet :=
  let i := b1 * 256 + b2
  let net1 :=
    match alookup t.network i with
    | none => t.network
    | some hosts => ainsert t.network i (hosts.erase b3)
  if ((alookup net1 i).getD []).isEmpty then
    let net2 := aerase net1 i
    if t.subnets.length > 1 then
      if i + 1 ≤ t.subnets.length then
        some { t with network := net2,
                      subnets := t.subnets.take i ++ t.subnets.drop (i + 1) }
      else none
    else some { t with network := net2, subnets := [] }
  else some { t with network := net1 }

/-! ### Selection of the subnet inside `AllocateTenantIP`

The loop `for _, k := range subnets { if len(network[k]) < maxHosts
{ subnetInt = uint16(k) } }` runs over the ascending-sorted list and
keeps overwriting `subnetInt`, so on a sorted list its result is the
greatest subnet with spare capacity (or the 0 sentinel). -/

theorem foldl_pick_spec (n : Network) (M : Nat) (l : List Nat)
    (hs : List.Sorted (· ≤ ·) l) (acc : Nat) :
    (l.foldl (fun x k => if hostCount n k < M then k else x) acc = acc ∧
       ∀ k ∈ l, ¬ hostCount n k < M) ∨
    (hostCount n (l.foldl (fun x k => if hostCount n k < M then k else x) acc) < M ∧
       l.foldl (fun x k => if hostCount n k < M then k else x) acc ∈ l ∧
       ∀ k ∈ l, hostCount n k < M →
         k ≤ l.foldl (fun x k => if hostCount n k < M then k else x) acc) := by
  induction l generalizing acc with
  | nil => exact Or.inl ⟨rfl, by simp⟩
  | cons a t ih =>
    rw [List.sorted_cons] at hs
    by_cases ha : hostCount n a < M
    · have hfold : (a :: t).foldl (fun x k => if hostCount n k < M then k else x) acc
          = t.foldl (fun x k => if hostCount n k < M then k else x) a := by
        simp [List.foldl_cons, if_pos ha]
      rw [hfold]
      rcases ih hs.2 a with ⟨heq, hnone⟩ | ⟨hlt, hmem, hmax⟩
      · rw [heq]
        right
        refine ⟨ha, List.mem_cons_self a t, ?_⟩
        intro k hk hklt
        rcases List.mem_cons.mp hk with hk | hk
        · exact le_of_eq hk
        · exact absurd hklt (hnone k hk)
      · right
        refine ⟨hlt, List.mem_cons_of_mem a hmem, ?_⟩
        intro k hk hklt
        rcases List.mem_cons.mp hk with hk | hk
        · subst hk
          exact hs.1 _ hmem
        · exact hmax k hk hklt
    · have hfold : (a :: t).foldl (fun x k => if hostCount n k < M then k else x) acc
          = t.foldl (fun x k => if hostCount n k < M then k else x) acc := by
        simp [List.foldl_cons, if_neg ha]
      rw [hfold]
      rcases ih hs.2 acc with ⟨heq, hnone⟩ | ⟨hlt, hmem, hmax⟩
      · left
        refine ⟨heq, ?_⟩
        intro k hk
        rcases List.mem_cons.mp hk with hk | hk
        · exact hk ▸ ha
        · exact hnone k hk
      · right
        refine ⟨hlt, List.mem_cons_of_mem a hmem, ?_⟩
        intro k hk hklt
        rcases List.mem_cons.mp hk with hk | hk
        · exact absurd (hk ▸ hklt) ha
        · exact hmax k hk hklt

/-- C1 (amended): when some already-allocated subnet has spare capacity,
`AllocateTenantIP` allocates inside the HIGHEST-numbered such subnet:
the selection loop has no `break`, so after ascending sort the last
subnet whose host count is below `maxHosts` wins. -/
theorem AllocateTenantIP_picks_highest_spare_subnet
    (t : TenantNet) (M p r : Nat) (hosts : HostSet)
    (hM : getMaxHost t.subnetBits = some M)
    (hpick : pickSubnet t.network (List.insertionSort (· ≤ ·) t.subnets) M = p)
    (hp : p ≠ 0)
    (hh : alookup t.network p = some hosts)
    (hr : firstFreeHost hosts = some r) :
    AllocateTenantIP t =
      some ({ t with network := ainsert t.network p (hosts ++ [r]),
                     subnets := List.insertionSort (· ≤ ·) t.subnets }, p, r) ∧
    p ∈ t.subnets ∧ hostCount t.network p < M ∧
    ∀ k ∈ t.subnets, hostCount t.network k < M → k ≤ p := by
  have hmemiff : ∀ x : Nat, x ∈ List.insertionSort (· ≤ ·) t.subnets ↔ x ∈ t.subnets :=
    fun x => (List.perm_insertionSort (· ≤ ·) t.subnets).mem_iff
  have hspec := foldl_pick_spec t.network M (List.insertionSort (· ≤ ·) t.subnets)
    (List.sorted_insertionSort (· ≤ ·) t.subnets) 0
  rw [show (List.insertionSort (· ≤ ·) t.subnets).foldl
        (fun a k => if hostCount t.network k < M then k else a) 0 =
      pickSubnet t.network (List.insertionSort (· ≤ ·) t.subnets) M from rfl,
    hpick] at hspec
  rcases hspec with ⟨heq, _⟩ | ⟨hlt, hmem, hmax⟩
  · exact absurd heq hp
  · refine ⟨?_, (hmemiff p).mp hmem, hlt, ?_⟩
    · simp only [AllocateTenantIP, hM, Option.bind_eq_bind, Option.some_bind, hpick,
        if_neg hp, hh, hr]
    · intro k hk hklt
      exact hmax k ((hmemiff k).mpr hk) hklt

/-- C1 witness: a tenant with `subnetBits = 29` (`maxHosts = 5`) owning
subnets 4096 and 4097, both with spare capacity; the allocation lands in
4097, the highest. -/
theorem AllocateTenantIP_picks_highest_spare_subnet_witness :
    getMaxHost 29 = some 5 ∧
    AllocateTenantIP ⟨29, [(4096, [2, 3, 4, 5]), (4097, [2])], [4096, 4097]⟩ =
      some (⟨29, [(4096, [2, 3, 4, 5]), (4097, [2, 3])], [4096, 4097]⟩, 4097, 3) ∧
    (4097 : Nat) ∈ [4096, 4097] ∧
    ∀ k ∈ [4096, 4097],
      hostCount [(4096, [2, 3, 4, 5]), (4097, [2])] k < 5 → k ≤ 4097 := by
  have h := AllocateTenantIP_picks_highest_spare_subnet
    ⟨29, [(4096, [2, 3, 4, 5]), (4097, [2])], [4096, 4097]⟩ 5 4097 3 [2]
    (by decide) (by decide) (by decide) (by decide) (by decide)
  exact ⟨by decide, h.1, h.2.1, h.2.2.2⟩

/-- C1 counterexample: in the same reachable state (built below from a
fresh tenant by six allocations and one release) both subnets 4096 and
4097 have spare capacity, yet `AllocateTenantIP` does NOT allocate in the
lowest-numbered one: it picks 4097, not 4096. -/
theorem AllocateTenantIP_not_lowest_spare_subnet :
    -- reachability of the state from a fresh tenant with subnetBits 29
    AllocateTenantIP ⟨29, [], []⟩ = some (⟨29, [(4096, [2])], [4096]⟩, 4096, 2) ∧
    AllocateTenantIP ⟨29, [(4096, [2])], [4096]⟩ =
      some (⟨29, [(4096, [2, 3])], [4096]⟩, 4096, 3) ∧
    AllocateTenantIP ⟨29, [(4096, [2, 3])], [4096]⟩ =
      some (⟨29, [(4096, [2, 3, 4])], [4096]⟩, 4096, 4) ∧
    AllocateTenantIP ⟨29, [(4096, [2, 3, 4])], [4096]⟩ =
      some (⟨29, [(4096, [2, 3, 4, 5])], [4096]⟩, 4096, 5) ∧
    AllocateTenantIP ⟨29, [(4096, [2, 3, 4, 5])], [4096]⟩ =
      some (⟨29, [(4096, [2, 3, 4, 5, 6])], [4096]⟩, 4096, 6) ∧
    AllocateTenantIP ⟨29, [(4096, [2, 3, 4, 5, 6])], [4096]⟩ =
      some (⟨29, [(4096, [2, 3, 4, 5, 6]), (4097, [2])], [4096, 4097]⟩, 4097, 2) ∧
    ReleaseTenantIP ⟨29, [(4096, [2, 3, 4, 5, 6]), (4097, [2])], [4096, 4097]⟩ 16 0 6 =
      some ⟨29, [(4096, [2, 3, 4, 5]), (4097, [2])], [4096, 4097]⟩ ∧
    -- both subnets have spare capacity under maxHosts = 5
    getMaxHost 29 = some 5 ∧
    hostCount [(4096, [2, 3, 4, 5]), (4097, [2])] 4096 < 5 ∧
    hostCount [(4096, [2, 3, 4, 5]), (4097, [2])] 4097 < 5 ∧
    -- yet the allocation lands in subnet 4097, not the lowest (4096)
    (AllocateTenantIP ⟨29, [(4096, [2, 3, 4, 5]), (4097, [2])], [4096, 4097]⟩).map
      (fun q => q.2.1) = some 4097 ∧
    (4096 : Nat) < 4097 := by
  decide

/-- C2: round-trip failing input.  With `subnetBits = 30` (`maxHosts = 1`)
the second allocation opens subnet 4097 and returns `172.16.1.2`; releasing
that address empties subnet 4097 while two subnets are listed, and
`ReleaseTenantIP` slices the subnet list at the subnet VALUE
(`append(subnets[:4097], subnets[4098:]...)`), which is out of range for a
two-element slice: a Go runtime panic (`none`), not a clean return to the
pre-allocation state. -/
theorem ReleaseTenantIP_round_trip_panics :
    AllocateTenantIP ⟨30, [], []⟩ = some (⟨30, [(4096, [2])], [4096]⟩, 4096, 2) ∧
    AllocateTenantIP ⟨30, [(4096, [2])], [4096]⟩ =
      some (⟨30, [(4096, [2]), (4097, [2])], [4096, 4097]⟩, 4097, 2) ∧
    allocatedIP 4097 2 = (172, 16, 1, 2) ∧
    ReleaseTenantIP ⟨30, [(4096, [2]), (4097, [2])], [4096, 4097]⟩ 16 1 2 = none := by
  decide

/-- C7: tenant IP lifecycle for a fresh tenant with `subnetBits = 24`:
first allocation yields `172.16.0.2`, second `172.16.0.3`; after releasing
`172.16.0.2` (with `.3` still held) the next allocation yields `172.16.0.2`
again. -/
theorem tenant_ip_lifecycle :
    AllocateTenantIP ⟨24, [], []⟩ = some (⟨24, [(4096, [2])], [4096]⟩, 4096, 2) ∧
    allocatedIP 4096 2 = (172, 16, 0, 2) ∧
    AllocateTenantIP ⟨24, [(4096, [2])], [4096]⟩ =
      some (⟨24, [(4096, [2, 3])], [4096]⟩, 4096, 3) ∧
    allocatedIP 4096 3 = (172, 16, 0, 3) ∧
    ReleaseTenantIP ⟨24, [(4096, [2, 3])], [4096]⟩ 16 0 2 =
      some ⟨24, [(4096, [3])], [4096]⟩ ∧
    AllocateTenantIP ⟨24, [(4096, [3])], [4096]⟩ =
      some (⟨24, [(4096, [3, 2])], [4096]⟩, 4096, 2) ∧
    allocatedIP 4096 2 = (172, 16, 0, 2) := by
  decide

/-! ## CNCI manager: `ScheduleRemoveSubnet`

From the CNCI manager source.  Each subnet's CNCI record carries
`timer *time.Timer`; `ScheduleRemoveSubnet` returns an error when no CNCI
exists for the subnet, returns silently when a removal timer is already
pending, and otherwise installs one `time.AfterFunc(5*time.Minute, ...)`
timer.  `timerSet` models `cnci.timer != nil`; `pendingTimers` counts the
outstanding `AfterFunc` timers that have been created and have neither
fired nor been stopped. -/

structure CNCI where
  timerSet : Bool
  pendingTimers : Nat
deriving DecidableEq, Repr

abbrev CNCISubnets := List (Nat × CNCI)

def ScheduleRemoveSubnet (subnets : CNCISubnets) (k : Nat) :
    CNCISubnets × Except String Unit :=
  match alookup subnets k with
  | none => (subnets, .error "Subnet does not exist")
  | some c =>
    if c.timerSet then (subnets, .ok ())
    else (ainsert subnets k ⟨true, c.pendingTimers + 1⟩, .ok ())

/-- C9: calling `ScheduleRemoveSubnet k` twice before the timer fires, on a
subnet with an existing CNCI record and no pending timer, leaves exactly one
pending timer: both calls return without error, the second call leaves the
state unchanged and creates no further timer. -/
theorem ScheduleRemoveSubnet_idempotent (subnets : CNCISubnets) (k : Nat)
    (hc : alookup subnets k = some ⟨false, 0⟩) :
    (ScheduleRemoveSubnet subnets k).2 = .ok () ∧
    (ScheduleRemoveSubnet (ScheduleRemoveSubnet subnets k).1 k).2 = .ok () ∧
    (ScheduleRemoveSubnet (ScheduleRemoveSubnet subnets k).1 k).1 =
      (ScheduleRemoveSubnet subnets k).1 ∧
    alookup (ScheduleRemoveSubnet (ScheduleRemoveSubnet subnets k).1 k).1 k =
      some ⟨true, 1⟩ := by
  have h1 : ScheduleRemoveSubnet subnets k =
      (ainsert subnets k ⟨true, 1⟩, .ok ()) := by
    simp [ScheduleRemoveSubnet, hc]
  have hl : alookup (ainsert subnets k (⟨true, 1⟩ : CNCI)) k = some ⟨true, 1⟩ := by
    simp [alookup_ainsert]
  have h2 : ScheduleRemoveSubnet (ainsert subnets k ⟨true, 1⟩) k =
      (ainsert subnets k ⟨true, 1⟩, .ok ()) := by
    simp [ScheduleRemoveSubnet, hl]
  rw [h1]
  simp [h2, hl]

/-- C9 witness: one subnet with a fresh CNCI record. -/
theorem ScheduleRemoveSubnet_idempotent_witness :
    alookup [(7, (⟨false, 0⟩ : CNCI))] 7 = some ⟨false, 0⟩ ∧
    (ScheduleRemoveSubnet (ScheduleRemoveSubnet [(7, ⟨false, 0⟩)] 7).1 7).1 =
      (ScheduleRemoveSubnet [(7, ⟨false, 0⟩)] 7).1 ∧
    alookup (ScheduleRemoveSubnet (ScheduleRemoveSubnet [(7, ⟨false, 0⟩)] 7).1 7).1 7 =
      some ⟨true, 1⟩ := by
  have h := ScheduleRemoveSubnet_idempotent [(7, ⟨false, 0⟩)] 7 (by decide)
  exact ⟨by decide, h.2.2.1, h.2.2.2⟩

/-! ## Stats ingestion: the per-instance usage delta (`addInstanceStats`)

From `datastore.go`: the raw per-sample readings are passed through
`reduceToZero` when the `CiaoServerStats` record is built, and the delta
fed to `updateTenantUsage` is the difference between that record and the
previous one (`instanceLastStat`). -/

def reduceToZero (v : Int) : Int := if v < 0 then 0 else v

/-- Usage fields of `payloads.InstanceStat` (one per-instance entry). -/
structure InstanceStat where
  cpuUsage : Int
  memoryUsageMB : Int
  diskUsageMB : Int
deriving DecidableEq, Repr

/-- Usage fields of `types.CiaoServerStats`. -/
structure ServerStats where
  vcpuUsage : Int
  memUsage : Int
  diskUsage : Int
deriving DecidableEq, Repr

/-- `types.CiaoUsage`, the delta handed to `updateTenantUsage`. -/
structure CiaoUsage where
  vcpu : Int
  memory : Int
  disk : Int
deriving DecidableEq, Repr

/-- The `instanceStat` record that `addInstanceStats` builds for one entry. -/
def mkInstanceStat (s : InstanceStat) : ServerStats :=
  ⟨reduceToZero s.cpuUsage, reduceToZero s.memoryUsageMB, reduceToZero s.diskUsageMB⟩

/-- The `deltaUsage` value `addInstanceStats` feeds to `updateTenantUsage`. -/
def deltaUsage (s : InstanceStat) (last : ServerStats) : CiaoUsage :=
  ⟨(mkInstanceStat s).vcpuUsage - last.vcpuUsage,
   (mkInstanceStat s).memUsage - last.memUsage,
   (mkInstanceStat s).diskUsage - last.diskUsage⟩

/-- C8 counterexample: with a previous vCPU reading of 10 and a current
reading of 5, the delta fed to `updateTenantUsage` is -5, i.e. negative:
the delta is NOT clamped to be >= 0. -/
theorem deltaUsage_can_be_negative :
    deltaUsage ⟨5, 0, 0⟩ ⟨10, 0, 0⟩ = ⟨-5, -0, -0⟩ ∧
    (deltaUsage ⟨5, 0, 0⟩ ⟨10, 0, 0⟩).vcpu < 0 := by
  decide

theorem reduceToZero_eq_max (v : Int) : reduceToZero v = max v 0 := by
  by_cases h : v < 0
  · simp [reduceToZero, h, max_eq_right (le_of_lt h)]
  · simp [reduceToZero, h, max_eq_left (not_lt.mp h)]

/-- C8 (amended): the clamping applies to the raw per-sample readings,
not to the delta: each entry's readings are replaced by `max reading 0`
(so the stored stat is componentwise >= 0), and the delta handed to
`updateTenantUsage` is the unclamped difference between the clamped
current readings and the previous stored stat; it may be negative. -/
theorem deltaUsage_clamps_raw_not_delta (s : InstanceStat) (last : ServerStats) :
    deltaUsage s last =
      ⟨max s.cpuUsage 0 - last.vcpuUsage,
       max s.memoryUsageMB 0 - last.memUsage,
       max s.diskUsageMB 0 - last.diskUsage⟩ ∧
    0 ≤ (mkInstanceStat s).vcpuUsage ∧
    0 ≤ (mkInstanceStat s).memUsage ∧
    0 ≤ (mkInstanceStat s).diskUsage := by
  refine ⟨?_, ?_, ?_, ?_⟩ <;>
    simp [deltaUsage, mkInstanceStat, reduceToZero_eq_max, le_max_right]

section AssocMapMore

variable {κ ν : Type} [DecidableEq κ]

theorem ainsert_eq_append {l : List (κ × ν)} {k : κ} (v : ν)
    (h : alookup l k = none) : ainsert l k v = l ++ [(k, v)] := by
  induction l with
  | nil => rfl
  | cons p r ih =>
    obtain ⟨pk, pv⟩ := p
    by_cases hk : pk = k
    · subst hk
      rw [alookup_cons_self] at h
      exact absurd h (by simp)
    · rw [alookup_cons_ne hk] at h
      rw [ainsert_cons_ne hk, ih h]
      simp

theorem aerase_eq_self_of_lookup_none {l : List (κ × ν)} {k : κ}
    (h : alookup l k = none) : aerase l k = l := by
  induction l with
  | nil => rfl
  | cons p r ih =>
    obtain ⟨pk, pv⟩ := p
    by_cases hk : pk = k
    · subst hk
      rw [alookup_cons_self] at h
      exact absurd h (by simp)
    · rw [alookup_cons_ne hk] at h
      rw [aerase_cons_ne hk, ih h]

theorem mem_ainsert_strong {l : List (κ × ν)} {k : κ} {v : ν} {pr : κ × ν}
    (hnd : (akeys l).Nodup) (h : pr ∈ ainsert l k v) :
    pr = (k, v) ∨ (pr ∈ l ∧ pr.1 ≠ k) := by
  induction l with
  | nil =>
    simp [ainsert] at h
    exact Or.inl h
  | cons p r ih =>
    obtain ⟨pk, pv⟩ := p
    simp only [akeys, List.map_cons, List.nodup_cons] at hnd
    by_cases hk : pk = k
    · subst hk
      rw [ainsert_cons_self] at h
      rcases List.mem_cons.mp h with h | h
      · exact Or.inl h
      · refine Or.inr ⟨List.mem_cons_of_mem _ h, ?_⟩
        intro hh
        exact hnd.1 (by simpa [akeys] using ⟨pr.2, hh ▸ (by simpa using h)⟩)
    · rw [ainsert_cons_ne hk] at h
      rcases List.mem_cons.mp h with h | h
      · subst h
        exact Or.inr ⟨List.mem_cons_self _ _, hk⟩
      · rcases ih (by simpa [akeys] using hnd.2) h with h' | h'
        · exact Or.inl h'
        · exact Or.inr ⟨List.mem_cons_of_mem _ h'.1, h'.2⟩

theorem mem_aerase {l : List (κ × ν)} {k : κ} {pr : κ × ν}
    (h : pr ∈ aerase l k) : pr ∈ l := by
  induction l with
  | nil => simpa [aerase] using h
  | cons p r ih =>
    obtain ⟨pk, pv⟩ := p
    by_cases hk : pk = k
    · subst hk
      rw [aerase_cons_self] at h
      exact List.mem_cons_of_mem _ (ih h)
    · rw [aerase_cons_ne hk] at h
      rcases List.mem_cons.mp h with h | h
      · exact h ▸ List.mem_cons_self _ _
      · exact List.mem_cons_of_mem _ (ih h)

end AssocMapMore

/-! ## External IP pool manager

From `datastore.go`.  IPv4 addresses are modelled as 32-bit naturals; a
CIDR string is modelled pre-parsed as its masked base address and its mask
length (`ones, bits := ipNet.Mask.Size()` with `bits = 32`); the
`externalSubnets map[string]bool` / `externalIPs map[string]bool` indexes
(whose keys are the canonical CIDR/address strings, re-parsed on every
check) become lists of parsed subnets / addresses.  Unparseable CIDR and
IP strings are not modelled: every error path returns before any commit
exactly as the parse-failure paths do.  `db` calls are modelled as
succeeding. -/

/-- `types.ExternalSubnet` with the CIDR pre-parsed. -/
structure ExternalSubnet where
  ID : String
  base : Nat
  ones : Nat
deriving DecidableEq, Repr

def subnetSize (s : ExternalSubnet) : Nat := 2 ^ (32 - s.ones)

/-- `(*net.IPNet).Contains`. -/
def subnetContains (s : ExternalSubnet) (ip : Nat) : Bool :=
  s.base ≤ ip && ip < s.base + subnetSize s

/-- `types.ExternalIP`. -/
structure ExternalIP where
  ID : String
  Address : Nat
deriving DecidableEq, Repr

/-- `types.Pool`. -/
structure Pool where
  ID : String
  Name : String
  Subnets : List ExternalSubnet
  IPs : List ExternalIP
  TotalIPs : Int
  Free : Int
deriving DecidableEq, Repr

/-- `types.MappedIP`. -/
structure MappedIP where
  ID : String
  ExternalIP : Nat
  InternalIP : String
  InstanceID : String
  TenantID : String
  PoolID : String
  PoolName : String
deriving DecidableEq, Repr

inductive PoolErr where
  | duplicateSubnet
  | duplicateIP
  | invalidIP
  | poolNotFound
  | poolEmpty
  | poolNotEmpty
  | invalidPoolAddress
  | subnetTooSmall
  | addressNotFound
deriving DecidableEq, Repr

deriving instance DecidableEq for Except

/-- The pool-related caches of the Datastore (under `poolsLock`). -/
structure PoolsState where
  pools : List (String × Pool)
  mappedIPs : List (Nat × MappedIP)
  externalSubnets : List ExternalSubnet
  externalIPs : List Nat
deriving DecidableEq, Repr

/-- `isDuplicateSubnet`: any admitted subnet contains the new base or is
contained by the new subnet. -/
def isDuplicateSubnet (es : List ExternalSubnet) (new : ExternalSubnet) : Bool :=
  es.any fun s => subnetContains s new.base || subnetContains new s.base

/-- `isDuplicateIP`: the IP is covered by an admitted subnet or equals an
admitted individual address. -/
def isDuplicateIP (st : PoolsState) (ip : Nat) : Bool :=
  st.externalSubnets.any (fun s => subnetContains s ip) || st.externalIPs.contains ip

/-- Set-insert into the `externalIPs` index. -/
def setInsert (l : List Nat) (x : Nat) : List Nat :=
  if l.contains x then l else l ++ [x]

/-- Remove a subnet from the `externalSubnets` index
(`delete(ds.externalSubnets, sub.CIDR)`, keyed by the CIDR). -/
def eraseCIDR (es : List ExternalSubnet) (sub : ExternalSubnet) : List ExternalSubnet :=
  es.filter fun s => ¬ (s.base = sub.base ∧ s.ones = sub.ones)

/-- The subnet-admission loop of `AddPool`: each subnet is checked against
the evolving index and, once validated, immediately written to it
(`ds.externalSubnets[subnet.CIDR] = true` inside the loop).  Returns the
index state reached and the error, if any. -/
def addPoolSubnetsLoop : List ExternalSubnet → List ExternalSubnet →
    List ExternalSubnet × Option PoolErr
  | es, [] => (es, none)
  | es, sub :: rest =>
    if isDuplicateSubnet es sub then (es, some .duplicateSubnet)
    else addPoolSubnetsLoop (es ++ [sub]) rest

/-- The individual-IP validation loop of `AddPool` (only reached when the
pool lists no subnets): all IPs are validated against the ORIGINAL state
before anything is committed. -/
def addPoolIPsLoop (st : PoolsState) : List ExternalIP → Except PoolErr (List Nat)
  | [] => .ok []
  | ip :: rest =>
    if isDuplicateIP st ip.Address then .error .duplicateIP
    else (addPoolIPsLoop st rest).map (ip.Address :: ·)

/-- `AddPool`.  Note the `if len(pool.Subnets) > 0 { ... } else if
len(pool.IPs) > 0 { ... }`: individual IPs are validated and indexed only
when the pool lists NO subnets. -/
def AddPool (st : PoolsState) (pool : Pool) : PoolsState × Except PoolErr Unit :=
  if pool.Subnets ≠ [] then
    match addPoolSubnetsLoop st.externalSubnets pool.Subnets with
    | (es, some e) => ({ st with externalSubnets := es }, .error e)
    | (es, none) =>
      ({ st with externalSubnets := es,
                 pools := ainsert st.pools pool.ID pool }, .ok ())
  else if pool.IPs ≠ [] then
    match addPoolIPsLoop st pool.IPs with
    | .error e => (st, .error e)
    | .ok newIPs =>
      ({ st with externalIPs := newIPs.foldl setInsert st.externalIPs,
                 pools := ainsert st.pools pool.ID pool }, .ok ())
  else ({ st with pools := ainsert st.pools pool.ID pool }, .ok ())

/-- `AddExternalSubnet`: duplicate check, then
`newIPs := (1 << (bits-ones)) - 2` rejecting `newIPs <= 0`
(`ErrSubnetTooSmall`; this intentionally forbids /32 — and also /31). -/
def AddExternalSubnet (st : PoolsState) (poolID : String) (sub : ExternalSubnet) :
    PoolsState × Except PoolErr Unit :=
  match alookup st.pools poolID with
  | none => (st, .error .poolNotFound)
  | some p =>
    if isDuplicateSubnet st.externalSubnets sub then (st, .error .duplicateSubnet)
    else
      let newIPs : Int := 2 ^ (32 - sub.ones) - 2
      if newIPs ≤ 0 then (st, .error .subnetTooSmall)
      else
        let p' := { p with TotalIPs := p.TotalIPs + newIPs,
                           Free := p.Free + newIPs,
                           Subnets := p.Subnets ++ [sub] }
        ({ st with pools := ainsert st.pools poolID p',
                   externalSubnets := st.externalSubnets ++ [sub] }, .ok ())

/-- The validation loop of `AddExternalIPs`, mutating the local pool copy.
Go sorts the raw address strings first so that equal neighbours detect
duplicates inside the request (`lastIP`); the processing order is kept as
given here (it does not affect any property proved below) and the UUID of
each new `ExternalIP` is left blank. -/
def addExternalIPsLoop (st : PoolsState) :
    Pool → Option Nat → List Nat → Except PoolErr Pool
  | p, _, [] => .ok p
  | p, lastIP, ip :: rest =>
    if lastIP = some ip then .error .duplicateIP
    else if isDuplicateIP st ip then .error .duplicateIP
    else addExternalIPsLoop st
      { p with TotalIPs := p.TotalIPs + 1, Free := p.Free + 1,
               IPs := p.IPs ++ [⟨"", ip⟩] } (some ip) rest

/-- `AddExternalIPs`. -/
def AddExternalIPs (st : PoolsState) (poolID : String) (IPs : List Nat) :
    PoolsState × Except PoolErr Unit :=
  match alookup st.pools poolID with
  | none => (st, .error .poolNotFound)
  | some p =>
    match addExternalIPsLoop st p none IPs with
    | .error e => (st, .error e)
    | .ok p' =>
      ({ st with pools := ainsert st.pools poolID p',
                 externalIPs := p'.IPs.foldl (fun l ip => setInsert l ip.Address)
                   st.externalIPs }, .ok ())

/-- Locate the first subnet with the given ID in the pool's subnet list
and cut it out (`append(p.Subnets[:i], p.Subnets[i+1:]...)` with the real
index `i` this time). -/
def findFirstSubnet : List ExternalSubnet → String →
    Option (List ExternalSubnet × ExternalSubnet)
  | [], _ => none
  | s :: rest, sid =>
    if s.ID = sid then some (rest, s)
    else (findFirstSubnet rest sid).map fun q => (s :: q.1, q.2)

/-- Is any address of the subnet currently mapped?  The Go loop walks every
address from the masked base while `Contains` holds. -/
def subnetHasMappedAddr (mapped : List (Nat × MappedIP)) (s : ExternalSubnet) : Bool :=
  (List.range' s.base (subnetSize s)).any fun a => (alookup mapped a).isSome

/-- `DeleteSubnet`. -/
def DeleteSubnet (st : PoolsState) (poolID subnetID : String) :
    PoolsState × Except PoolErr Unit :=
  match alookup st.pools poolID with
  | none => (st, .error .poolNotFound)
  | some p =>
    match findFirstSubnet p.Subnets subnetID with
    | none => (st, .error .invalidPoolAddress)
    | some (rest, sub) =>
      if subnetHasMappedAddr st.mappedIPs sub then (st, .error .poolNotEmpty)
      else
        let numIPs : Int := 2 ^ (32 - sub.ones) - 2
        let p' := { p with TotalIPs := p.TotalIPs - numIPs,
                           Free := p.Free - numIPs, Subnets := rest }
        ({ st with pools := ainsert st.pools poolID p',
                   externalSubnets := eraseCIDR st.externalSubnets sub }, .ok ())

/-- Locate the first individual IP with the given ID and cut it out. -/
def findFirstIP : List ExternalIP → String → Option (List ExternalIP × ExternalIP)
  | [], _ => none
  | ip :: rest, aid =>
    if ip.ID = aid then some (rest, ip)
    else (findFirstIP rest aid).map fun q => (ip :: q.1, q.2)

/-- `DeleteExternalIP`. -/
def DeleteExternalIP (st : PoolsState) (poolID addrID : String) :
    PoolsState × Except PoolErr Unit :=
  match alookup st.pools poolID with
  | none => (st, .error .poolNotFound)
  | some p =>
    match findFirstIP p.IPs addrID with
    | none => (st, .error .invalidPoolAddress)
    | some (rest, extIP) =>
      if (alookup st.mappedIPs extIP.Address).isSome then (st, .error .poolNotEmpty)
      else
        let p' := { p with TotalIPs := p.TotalIPs - 1, Free := p.Free - 1,
                           IPs := rest }
        ({ st with pools := ainsert st.pools poolID p',
                   externalIPs := st.externalIPs.filter (· ≠ extIP.Address) }, .ok ())

/-- The per-subnet scan of `MapExternalIP`: start at the masked base,
skip the gateway (`incrementIP(initIP)`), walk while `Contains` holds,
take the first address not in `mappedIPs`. -/
def firstFreeInSubnet (mapped : List (Nat × MappedIP)) (s : ExternalSubnet) : Option Nat :=
  (List.range' (s.base + 1) (subnetSize s - 1)).find? fun a => (alookup mapped a).isNone

/-- Subnets are scanned in list order; the first subnet yielding an
address wins. -/
def firstFreePoolAddr (mapped : List (Nat × MappedIP))
    (subs : List ExternalSubnet) : Option Nat :=
  subs.findSome? (firstFreeInSubnet mapped)

/-- `MapExternalIP`.  The instance lookup is modelled by passing the
instance's data (`instanceID`, its private `internalIP`, its `tenantID`)
directly; `uuid` stands for the fresh `uuid.Generate()`.  On success the
new mapping is stored and the pool's `Free` drops by one; if the pool
claims free addresses but none is found, `ErrPoolEmpty` is returned with
no state change (the invariant-breach warning path). -/
def MapExternalIP (st : PoolsState) (poolID instanceID internalIP tenantID uuid : String) :
    PoolsState × Except PoolErr MappedIP :=
  match alookup st.pools poolID with
  | none => (st, .error .poolNotFound)
  | some pool =>
    if pool.Free = 0 then (st, .error .poolEmpty)
    else
      let addrFromSubnets := firstFreePoolAddr st.mappedIPs pool.Subnets
      let chosen := match addrFromSubnets with
        | some a => some a
        | none =>
          (pool.IPs.find? fun ip => (alookup st.mappedIPs ip.Address).isNone).map
            (·.Address)
      match chosen with
      | none => (st, .error .poolEmpty)
      | some a =>
        let m : MappedIP :=
          ⟨uuid, a, internalIP, instanceID, tenantID, pool.ID, pool.Name⟩
        let pool' := { pool with Free := pool.Free - 1 }
        ({ st with mappedIPs := ainsert st.mappedIPs a m,
                   pools := ainsert st.pools poolID pool' }, .ok m)

/-- `UnMapExternalIP`. -/
def UnMapExternalIP (st : PoolsState) (address : Nat) :
    PoolsState × Except PoolErr Unit :=
  match alookup st.mappedIPs address with
  | none => (st, .error .addressNotFound)
  | some m =>
    match alookup st.pools m.PoolID with
    | none => (st, .error .poolNotFound)
    | some pool =>
      let pool' := { pool with Free := pool.Free + 1 }
      ({ st with mappedIPs := aerase st.mappedIPs address,
                 pools := ainsert st.pools pool.ID pool' }, .ok ())

/-- `Modelled from the spec:` the controller facade that builds the
`types.Pool` handed to `AddPool` is not part of the sources here (only the
datastore side is); per the spec, a new pool's `totalIPs` is the sum of
usable hosts per subnet plus the number of individual IPs, and `free`
starts equal to `totalIPs`. -/
def specNewPool (id name : String) (subs : List ExternalSubnet)
    (ips : List Nat) : Pool :=
  { ID := id, Name := name, Subnets := subs,
    IPs := ips.map fun a => ⟨"", a⟩,
    TotalIPs := (subs.map fun s => (2 : Int) ^ (32 - s.ones) - 2).sum + ips.length,
    Free := (subs.map fun s => (2 : Int) ^ (32 - s.ones) - 2).sum + ips.length }

/-! ### AddPool error atomicity (C4) and duplicate-IP admission (C5) -/

theorem addPoolSubnetsLoop_fst (subs : List ExternalSubnet) :
    ∀ es, ∃ n, (addPoolSubnetsLoop es subs).1 = es ++ subs.take n := by
  induction subs with
  | nil =>
    intro es
    exact ⟨0, by simp [addPoolSubnetsLoop]⟩
  | cons sub rest ih =>
    intro es
    by_cases hdup : isDuplicateSubnet es sub
    · exact ⟨0, by simp [addPoolSubnetsLoop, hdup]⟩
    · obtain ⟨n, hn⟩ := ih (es ++ [sub])
      refine ⟨n + 1, ?_⟩
      simp only [addPoolSubnetsLoop, if_neg hdup, hn, List.take_succ_cons,
        List.append_assoc, List.singleton_append]

/-- C4 (amended): when `AddPool` returns an error, the pools cache, the
mapped-IP cache and the `externalIPs` index (and hence the persistent
store, which is only written on the success path) are unchanged — but the
`externalSubnets` index may retain the prefix of the new pool's subnets
that was validated before the failing entry, since the subnet loop writes
each validated subnet to the index immediately. -/
theorem AddPool_error_partial_commit (st : PoolsState) (pool : Pool)
    (st' : PoolsState) (e : PoolErr)
    (h : AddPool st pool = (st', .error e)) :
    st'.pools = st.pools ∧ st'.mappedIPs = st.mappedIPs ∧
    st'.externalIPs = st.externalIPs ∧
    ∃ n, st'.externalSubnets = st.externalSubnets ++ pool.Subnets.take n := by
  by_cases hs : pool.Subnets ≠ []
  · rcases hloop : addPoolSubnetsLoop st.externalSubnets pool.Subnets with ⟨es, err⟩
    cases err with
    | none =>
      have hc : AddPool st pool =
          ({ st with externalSubnets := es,
                     pools := ainsert st.pools pool.ID pool }, .ok ()) := by
        simp [AddPool, hs, hloop]
      rw [h] at hc
      exact absurd (congrArg Prod.snd hc) (by simp)
    | some e' =>
      have hc : AddPool st pool =
          ({ st with externalSubnets := es }, .error e') := by
        simp [AddPool, hs, hloop]
      rw [h] at hc
      have hst : st' = { st with externalSubnets := es } := congrArg Prod.fst hc
      obtain ⟨n, hn⟩ := addPoolSubnetsLoop_fst pool.Subnets st.externalSubnets
      rw [hloop] at hn
      subst hst
      exact ⟨rfl, rfl, rfl, n, hn⟩
  · push_neg at hs
    by_cases hi : pool.IPs ≠ []
    · rcases hloopi : addPoolIPsLoop st pool.IPs with e' | newIPs
      · have hc : AddPool st pool = (st, .error e') := by
          simp [AddPool, hs, hi, hloopi]
        rw [h] at hc
        have hst : st' = st := congrArg Prod.fst hc
        subst hst
        exact ⟨rfl, rfl, rfl, 0, by simp⟩
      · have hc : AddPool st pool =
            ({ st with externalIPs := newIPs.foldl setInsert st.externalIPs,
                       pools := ainsert st.pools pool.ID pool }, .ok ()) := by
          simp [AddPool, hs, hi, hloopi]
        rw [h] at hc
        exact absurd (congrArg Prod.snd hc) (by simp)
    · push_neg at hi
      have hc : AddPool st pool =
          ({ st with pools := ainsert st.pools pool.ID pool }, .ok ()) := by
        simp [AddPool, hs, hi]
      rw [h] at hc
      exact absurd (congrArg Prod.snd hc) (by simp)

/-- C4 witness: adding a pool whose second subnet duplicates an existing
one fails, and the state keeps the first (validated) subnet in the
`externalSubnets` index. -/
theorem AddPool_error_partial_commit_witness :
    AddPool ⟨[("A", ⟨"A", "apool", [⟨"sA", 167772160, 24⟩], [], 254, 254⟩)], [],
             [⟨"sA", 167772160, 24⟩], []⟩
        ⟨"B", "bpool", [⟨"sF", 184549376, 24⟩, ⟨"sA2", 167772160, 24⟩], [], 508, 508⟩ =
      (⟨[("A", ⟨"A", "apool", [⟨"sA", 167772160, 24⟩], [], 254, 254⟩)], [],
        [⟨"sA", 167772160, 24⟩, ⟨"sF", 184549376, 24⟩], []⟩,
       .error .duplicateSubnet) ∧
    [(("A" : String), (⟨"A", "apool", [⟨"sA", 167772160, 24⟩], [], 254, 254⟩ : Pool))] =
      [("A", ⟨"A", "apool", [⟨"sA", 167772160, 24⟩], [], 254, 254⟩)] ∧
    ∃ n, [(⟨"sA", 167772160, 24⟩ : ExternalSubnet), ⟨"sF", 184549376, 24⟩] =
      [⟨"sA", 167772160, 24⟩] ++
        ([(⟨"sF", 184549376, 24⟩ : ExternalSubnet), ⟨"sA2", 167772160, 24⟩].take n) := by
  have h := AddPool_error_partial_commit
    ⟨[("A", ⟨"A", "apool", [⟨"sA", 167772160, 24⟩], [], 254, 254⟩)], [],
     [⟨"sA", 167772160, 24⟩], []⟩
    ⟨"B", "bpool", [⟨"sF", 184549376, 24⟩, ⟨"sA2", 167772160, 24⟩], [], 508, 508⟩
    ⟨[("A", ⟨"A", "apool", [⟨"sA", 167772160, 24⟩], [], 254, 254⟩)], [],
      [⟨"sA", 167772160, 24⟩, ⟨"sF", 184549376, 24⟩], []⟩
    .duplicateSubnet (by decide)
  exact ⟨by decide, h.1, h.2.2.2⟩

/-- C4 counterexample: the claim says the `externalSubnets` index is
unchanged whenever `AddPool` errors; here `AddPool` fails with
`ErrDuplicateSubnet` on its second subnet, yet the first subnet
(`11.0.0.0/24`) stays committed in the index. -/
theorem AddPool_error_commits_validated_subnets :
    AddPool ⟨[("A", ⟨"A", "apool", [⟨"sA", 167772160, 24⟩], [], 254, 254⟩)], [],
             [⟨"sA", 167772160, 24⟩], []⟩
        ⟨"B", "bpool", [⟨"sF", 184549376, 24⟩, ⟨"sA2", 167772160, 24⟩], [], 508, 508⟩ =
      (⟨[("A", ⟨"A", "apool", [⟨"sA", 167772160, 24⟩], [], 254, 254⟩)], [],
        [⟨"sA", 167772160, 24⟩, ⟨"sF", 184549376, 24⟩], []⟩,
       .error .duplicateSubnet) ∧
    ([(⟨"sA", 167772160, 24⟩ : ExternalSubnet), ⟨"sF", 184549376, 24⟩] ≠
      [⟨"sA", 167772160, 24⟩]) := by
  decide

theorem addPoolIPsLoop_error_of_dup (st : PoolsState) (l : List ExternalIP)
    (hdup : ∃ ip ∈ l, isDuplicateIP st ip.Address) :
    addPoolIPsLoop st l = .error .duplicateIP := by
  induction l with
  | nil => simp at hdup
  | cons ip rest ih =>
    by_cases hd : isDuplicateIP st ip.Address
    · simp [addPoolIPsLoop, hd]
    · obtain ⟨ip', hmem, hdup'⟩ := hdup
      rcases List.mem_cons.mp hmem with hmem | hmem
      · exact absurd (hmem ▸ hdup') hd
      · simp [addPoolIPsLoop, hd, ih ⟨ip', hmem, hdup'⟩, Except.map]

/-- C5 (amended): `AddPool` rejects a duplicate individual IP with
`ErrDuplicateIP` only when the pool lists NO subnets; the submitted pool's
individual IPs are not validated (nor indexed) at all when the pool also
lists subnets (`else if` in the source). -/
theorem AddPool_duplicate_ip_only_without_subnets (st : PoolsState) (pool : Pool)
    (hsub : pool.Subnets = [])
    (hdup : ∃ ip ∈ pool.IPs, isDuplicateIP st ip.Address) :
    AddPool st pool = (st, .error .duplicateIP) := by
  have hi : pool.IPs ≠ [] := by
    obtain ⟨ip, hmem, _⟩ := hdup
    intro hnil
    rw [hnil] at hmem
    simp at hmem
  simp [AddPool, hsub, hi, addPoolIPsLoop_error_of_dup st pool.IPs hdup]

/-- C5 witness: a subnet-free pool listing an already-owned individual IP
is rejected with `ErrDuplicateIP`. -/
theorem AddPool_duplicate_ip_only_without_subnets_witness :
    (∃ ip ∈ [(⟨"i2", 167772162⟩ : ExternalIP)],
        isDuplicateIP ⟨[("C", ⟨"C", "cpool", [], [⟨"i1", 167772162⟩], 1, 1⟩)], [],
          [], [167772162]⟩ ip.Address) ∧
    AddPool ⟨[("C", ⟨"C", "cpool", [], [⟨"i1", 167772162⟩], 1, 1⟩)], [], [], [167772162]⟩
        ⟨"D", "dpool", [], [⟨"i2", 167772162⟩], 1, 1⟩ =
      (⟨[("C", ⟨"C", "cpool", [], [⟨"i1", 167772162⟩], 1, 1⟩)], [], [], [167772162]⟩,
       .error .duplicateIP) :=
  ⟨by decide,
   AddPool_duplicate_ip_only_without_subnets
     ⟨[("C", ⟨"C", "cpool", [], [⟨"i1", 167772162⟩], 1, 1⟩)], [], [], [167772162]⟩
     ⟨"D", "dpool", [], [⟨"i2", 167772162⟩], 1, 1⟩ rfl (by decide)⟩

/-- C5 counterexample: the same duplicate individual IP (`10.0.0.2`,
already owned by pool C) sails through `AddPool` when the submitted pool
also lists a subnet: the call succeeds instead of returning
`ErrDuplicateIP`. -/
theorem AddPool_duplicate_ip_accepted_with_subnets :
    isDuplicateIP ⟨[("C", ⟨"C", "cpool", [], [⟨"i1", 167772162⟩], 1, 1⟩)], [],
        [], [167772162]⟩ 167772162 = true ∧
    (AddPool ⟨[("C", ⟨"C", "cpool", [], [⟨"i1", 167772162⟩], 1, 1⟩)], [], [], [167772162]⟩
        ⟨"D", "dpool", [⟨"sF", 184549376, 24⟩], [⟨"i2", 167772162⟩], 255, 255⟩).2 =
      .ok () := by
  decide

/-! ### AddExternalSubnet admission (C6) -/

/-- C6 (amended): `AddExternalSubnet` rejects every subnet whose size
yields NO usable host (`2^(32-ones) - 2 <= 0`, i.e. /31 and /32) with
`ErrSubnetTooSmall`; in particular a /32 cannot be added as a subnet and
must be added as an individual IP. -/
theorem AddExternalSubnet_rejects_no_usable_host (st : PoolsState)
    (poolID : String) (sub : ExternalSubnet) (p : Pool)
    (hp : alookup st.pools poolID = some p)
    (hdup : isDuplicateSubnet st.externalSubnets sub = false)
    (hsmall : (2 : Int) ^ (32 - sub.ones) - 2 ≤ 0) :
    AddExternalSubnet st poolID sub = (st, .error .subnetTooSmall) := by
  simp [AddExternalSubnet, hp, hdup, hsmall]

/-- C6 witness: a /32 subnet is rejected with `ErrSubnetTooSmall`. -/
theorem AddExternalSubnet_rejects_no_usable_host_witness :
    alookup [(("E" : String), (⟨"E", "epool", [], [], 0, 0⟩ : Pool))] "E" =
      some ⟨"E", "epool", [], [], 0, 0⟩ ∧
    AddExternalSubnet ⟨[("E", ⟨"E", "epool", [], [], 0, 0⟩)], [], [], []⟩ "E"
        ⟨"s32", 167772160, 32⟩ =
      (⟨[("E", ⟨"E", "epool", [], [], 0, 0⟩)], [], [], []⟩, .error .subnetTooSmall) :=
  ⟨by decide,
   AddExternalSubnet_rejects_no_usable_host
     ⟨[("E", ⟨"E", "epool", [], [], 0, 0⟩)], [], [], []⟩ "E"
     ⟨"s32", 167772160, 32⟩ ⟨"E", "epool", [], [], 0, 0⟩
     (by decide) (by decide) (by decide)⟩

/-- C6 counterexample: a /30 subnet has `4 - 2 = 2` usable hosts — fewer
than 3 — yet `AddExternalSubnet` ACCEPTS it (adding 2 to `totalIPs` and
`free`), so "fewer than 3 usable hosts → ErrSubnetTooSmall" does not hold;
only /31 and /32 are rejected. -/
theorem AddExternalSubnet_accepts_two_usable_hosts :
    ((2 : Int) ^ (32 - 30) - 2 = 2) ∧ ((2 : Int) < 3) ∧
    AddExternalSubnet ⟨[("E", ⟨"E", "epool", [], [], 0, 0⟩)], [], [], []⟩ "E"
        ⟨"s30", 167772160, 30⟩ =
      (⟨[("E", ⟨"E", "epool", [⟨"s30", 167772160, 30⟩], [], 2, 2⟩)], [],
        [⟨"s30", 167772160, 30⟩], []⟩, .ok ()) := by
  decide

/-! ### The pool free-count invariant (C3) -/

/-- Number of `MappedIP` records drawn from pool `pid`. -/
def countPool (mapped : List (Nat × MappedIP)) (pid : String) : Nat :=
  (mapped.filter fun e => e.2.PoolID = pid).length

/-- `p.free == p.totalIPs − count(MappedIP where poolID == p.id)` for all
pools. -/
def PoolINV (st : PoolsState) : Prop :=
  ∀ pr ∈ st.pools, pr.2.Free = pr.2.TotalIPs - (countPool st.mappedIPs pr.1 : Int)

/-- Map-representation well-formedness: distinct keys, and every pool is
stored under its own ID. -/
def PoolWF (st : PoolsState) : Prop :=
  (akeys st.pools).Nodup ∧ (akeys st.mappedIPs).Nodup ∧
    ∀ pr ∈ st.pools, pr.2.ID = pr.1

instance : DecidablePred PoolINV := fun st => by
  unfold PoolINV
  infer_instance

instance : DecidablePred PoolWF := fun st => by
  unfold PoolWF
  infer_instance

theorem countPool_ainsert_fresh {mapped : List (Nat × MappedIP)} {a : Nat}
    (m : MappedIP) (q : String) (h : alookup mapped a = none) :
    countPool (ainsert mapped a m) q =
      countPool mapped q + (if m.PoolID = q then 1 else 0) := by
  rw [ainsert_eq_append m h]
  by_cases hq : m.PoolID = q <;>
    simp [countPool, List.filter_append, hq]

theorem countPool_aerase {mapped : List (Nat × MappedIP)} {a : Nat} {m : MappedIP}
    (q : String) (hnd : (akeys mapped).Nodup) (h : alookup mapped a = some m) :
    countPool mapped q =
      countPool (aerase mapped a) q + (if m.PoolID = q then 1 else 0) := by
  induction mapped with
  | nil => simp [alookup] at h
  | cons p r ih =>
    obtain ⟨pk, pv⟩ := p
    simp only [akeys, List.map_cons, List.nodup_cons] at hnd
    by_cases hk : pk = a
    · subst hk
      rw [alookup_cons_self] at h
      have hm : pv = m := by simpa using h
      subst hm
      rw [aerase_cons_self,
        aerase_eq_self_of_lookup_none
          (alookup_eq_none_of_not_mem_keys (by simpa [akeys] using hnd.1))]
      by_cases hq : pv.PoolID = q <;> simp [countPool, hq]
    · rw [alookup_cons_ne hk] at h
      rw [aerase_cons_ne hk]
      have := ih (by simpa [akeys] using hnd.2) h
      by_cases hq : pv.PoolID = q <;>
        simp [countPool, hq] at this ⊢ <;> omega

/-- Updating one pool while moving `Free` and `TotalIPs` by the same delta
preserves the invariant (the mapped set unchanged). -/
theorem inv_ainsert_delta {pools : List (String × Pool)}
    {mapped : List (Nat × MappedIP)} {pid : String} {p p' : Pool} {d : Int}
    (hnd : (akeys pools).Nodup)
    (hinv0 : ∀ pr ∈ pools, pr.2.Free = pr.2.TotalIPs - (countPool mapped pr.1 : Int))
    (hp : alookup pools pid = some p)
    (hF : p'.Free = p.Free + d) (hT : p'.TotalIPs = p.TotalIPs + d) :
    ∀ pr ∈ ainsert pools pid p',
      pr.2.Free = pr.2.TotalIPs - (countPool mapped pr.1 : Int) := by
  intro pr hpr
  rcases mem_ainsert_strong hnd hpr with h | ⟨hmem, _⟩
  · subst h
    have h0 := hinv0 (pid, p) (mem_of_alookup_eq_some hp)
    simp only at h0 ⊢
    omega
  · exact hinv0 pr hmem

/-- The ID-consistency half of `PoolWF` after a single-pool update. -/
theorem consistent_ainsert {pools : List (String × Pool)} {pid : String}
    {p p' : Pool}
    (hnd : (akeys pools).Nodup)
    (hcons : ∀ pr ∈ pools, pr.2.ID = pr.1)
    (hp : alookup pools pid = some p) (hID : p'.ID = p.ID) :
    ∀ pr ∈ ainsert pools pid p', pr.2.ID = pr.1 := by
  intro pr hpr
  rcases mem_ainsert_strong hnd hpr with h | ⟨hmem, _⟩
  · subst h
    simpa [hID] using hcons (pid, p) (mem_of_alookup_eq_some hp)
  · exact hcons pr hmem

theorem addExternalIPsLoop_delta (st : PoolsState) :
    ∀ (IPs : List Nat) (p : Pool) (lastIP : Option Nat) (p' : Pool),
      addExternalIPsLoop st p lastIP IPs = .ok p' →
      ∃ n : Nat, p'.Free = p.Free + n ∧ p'.TotalIPs = p.TotalIPs + n ∧ p'.ID = p.ID := by
  intro IPs
  induction IPs with
  | nil =>
    intro p lastIP p' h
    simp only [addExternalIPsLoop] at h
    have : p = p' := by simpa using h
    exact ⟨0, by simp [this]⟩
  | cons ip rest ih =>
    intro p lastIP p' h
    simp only [addExternalIPsLoop] at h
    by_cases h1 : lastIP = some ip
    · simp [h1] at h
    · by_cases h2 : isDuplicateIP st ip
      · simp [h1, h2] at h
      · simp only [if_neg h1, if_neg h2] at h
        obtain ⟨n, hF, hT, hID⟩ := ih _ _ _ h
        exact ⟨n + 1, by push_cast at hF hT ⊢ <;> constructor <;> [omega; exact ⟨by omega, hID⟩]⟩

theorem firstFreeInSubnet_unmapped {mapped : List (Nat × MappedIP)}
    {s : ExternalSubnet} {a : Nat} (h : firstFreeInSubnet mapped s = some a) :
    alookup mapped a = none := by
  have := List.find?_some h
  simpa using this

theorem firstFreePoolAddr_unmapped {mapped : List (Nat × MappedIP)}
    {subs : List ExternalSubnet} {a : Nat}
    (h : firstFreePoolAddr mapped subs = some a) :
    alookup mapped a = none := by
  obtain ⟨s, _, hs⟩ := List.exists_of_findSome?_eq_some h
  exact firstFreeInSubnet_unmapped hs

/-- The pool mutations of C3, as one operation type. -/
inductive PoolOp where
  | addPool (pool : Pool)
  | addExternalSubnet (poolID : String) (sub : ExternalSubnet)
  | addExternalIPs (poolID : String) (IPs : List Nat)
  | deleteSubnet (poolID subnetID : String)
  | deleteExternalIP (poolID addrID : String)
  | mapExternalIP (poolID instanceID internalIP tenantID uuid : String)
  | unMapExternalIP (address : Nat)

/-- The state reached by one pool mutation. -/
def poolStep (st : PoolsState) : PoolOp → PoolsState
  | .addPool pool => (AddPool st pool).1
  | .addExternalSubnet pid sub => (AddExternalSubnet st pid sub).1
  | .addExternalIPs pid ips => (AddExternalIPs st pid ips).1
  | .deleteSubnet pid sid => (DeleteSubnet st pid sid).1
  | .deleteExternalIP pid aid => (DeleteExternalIP st pid aid).1
  | .mapExternalIP pid i ii t u => (MapExternalIP st pid i ii t u).1
  | .unMapExternalIP a => (UnMapExternalIP st a).1

theorem AddPool_caches (st : PoolsState) (pool : Pool) :
    ((AddPool st pool).1.pools = ainsert st.pools pool.ID pool ∨
      (AddPool st pool).1.pools = st.pools) ∧
    (AddPool st pool).1.mappedIPs = st.mappedIPs := by
  by_cases hs : pool.Subnets ≠ []
  · rcases hloop : addPoolSubnetsLoop st.externalSubnets pool.Subnets with ⟨es, err⟩
    cases err <;> simp [AddPool, hs, hloop]
  · push_neg at hs
    by_cases hi : pool.IPs ≠ []
    · rcases hloopi : addPoolIPsLoop st pool.IPs with e | newIPs <;>
        simp [AddPool, hs, hi, hloopi]
    · push_neg at hi
      simp [AddPool, hs, hi]

theorem WF_INV_update_pool {st : PoolsState} {pid : String} {p : Pool}
    (p' : Pool) (d : Int) {st' : PoolsState}
    (hwf : PoolWF st) (hinv : PoolINV st)
    (hp : alookup st.pools pid = some p)
    (hpools : st'.pools = ainsert st.pools pid p')
    (hmapped : st'.mappedIPs = st.mappedIPs)
    (hF : p'.Free = p.Free + d) (hT : p'.TotalIPs = p.TotalIPs + d)
    (hID : p'.ID = p.ID) :
    PoolWF st' ∧ PoolINV st' := by
  obtain ⟨hndP, hndM, hcons⟩ := hwf
  refine ⟨⟨?_, ?_, ?_⟩, ?_⟩
  · rw [hpools]
    exact nodup_keys_ainsert _ _ hndP
  · rw [hmapped]
    exact hndM
  · rw [hpools]
    exact consistent_ainsert hndP hcons hp hID
  · unfold PoolINV
    rw [hpools, hmapped]
    exact inv_ainsert_delta hndP hinv hp hF hT

/-- C3: after every pool mutation (`AddPool` with a freshly constructed
pool, `AddExternalSubnet`, `AddExternalIPs`, `DeleteSubnet`,
`DeleteExternalIP`, `MapExternalIP`, `UnMapExternalIP`) every pool `p`
satisfies `p.free = p.totalIPs − count(MappedIP with poolID = p.id)`, and
each successful `MapExternalIP` decrements the pool's `free` by exactly
one. -/
theorem pool_free_invariant (st : PoolsState) (op : PoolOp)
    (hwf : PoolWF st) (hinv : PoolINV st)
    (hfresh : ∀ pool, op = .addPool pool →
        pool.Free = pool.TotalIPs ∧ countPool st.mappedIPs pool.ID = 0) :
    PoolWF (poolStep st op) ∧ PoolINV (poolStep st op) ∧
    (∀ pid i ii t u m, op = .mapExternalIP pid i ii t u →
      (MapExternalIP st pid i ii t u).2 = .ok m →
      ∃ p p', alookup st.pools pid = some p ∧
        alookup (poolStep st op).pools pid = some p' ∧
        p'.Free = p.Free - 1) := by
  obtain ⟨hndP, hndM, hcons⟩ := hwf
  cases op with
  | addPool pool =>
    obtain ⟨hfree, hcount⟩ := hfresh pool rfl
    obtain ⟨hpools, hmapped⟩ := AddPool_caches st pool
    refine ⟨⟨?_, ?_, ?_⟩, ?_, ?_⟩
    · show (akeys (AddPool st pool).1.pools).Nodup
      rcases hpools with hpe | hpe <;> rw [hpe]
      · exact nodup_keys_ainsert _ _ hndP
      · exact hndP
    · show (akeys (AddPool st pool).1.mappedIPs).Nodup
      rw [hmapped]
      exact hndM
    · show ∀ pr ∈ (AddPool st pool).1.pools, pr.2.ID = pr.1
      rcases hpools with hpe | hpe <;> rw [hpe]
      · intro pr hpr
        rcases mem_ainsert_strong hndP hpr with h | ⟨hmem, _⟩
        · subst h
          rfl
        · exact hcons pr hmem
      · exact hcons
    · show ∀ pr ∈ (AddPool st pool).1.pools,
        pr.2.Free = pr.2.TotalIPs - (countPool (AddPool st pool).1.mappedIPs pr.1 : Int)
      rw [hmapped]
      rcases hpools with hpe | hpe <;> rw [hpe]
      · intro pr hpr
        rcases mem_ainsert_strong hndP hpr with h | ⟨hmem, _⟩
        · subst h
          simp only
          rw [hcount, hfree]
          simp
        · exact hinv pr hmem
      · exact hinv
    · intro _ _ _ _ _ _ heq _
      cases heq
  | addExternalSubnet pid sub =>
    have hmain : PoolWF (poolStep st (.addExternalSubnet pid sub)) ∧
        PoolINV (poolStep st (.addExternalSubnet pid sub)) := by
      rcases hp : alookup st.pools pid with _ | p
      · have hst : poolStep st (.addExternalSubnet pid sub) = st := by
          simp [poolStep, AddExternalSubnet, hp]
        rw [hst]
        exact ⟨⟨hndP, hndM, hcons⟩, hinv⟩
      · by_cases hdup : isDuplicateSubnet st.externalSubnets sub
        · have hst : poolStep st (.addExternalSubnet pid sub) = st := by
            simp [poolStep, AddExternalSubnet, hp, hdup]
          rw [hst]
          exact ⟨⟨hndP, hndM, hcons⟩, hinv⟩
        · by_cases hsmall : (2 : Int) ^ (32 - sub.ones) - 2 ≤ 0
          · have hst : poolStep st (.addExternalSubnet pid sub) = st := by
              simp [poolStep, AddExternalSubnet, hp, hdup, hsmall]
            rw [hst]
            exact ⟨⟨hndP, hndM, hcons⟩, hinv⟩
          · exact WF_INV_update_pool
              { p with TotalIPs := p.TotalIPs + ((2 : Int) ^ (32 - sub.ones) - 2),
                       Free := p.Free + ((2 : Int) ^ (32 - sub.ones) - 2),
                       Subnets := p.Subnets ++ [sub] }
              ((2 : Int) ^ (32 - sub.ones) - 2)
              ⟨hndP, hndM, hcons⟩ hinv hp
              (by simp [poolStep, AddExternalSubnet, hp, hdup, hsmall])
              (by simp [poolStep, AddExternalSubnet, hp, hdup, hsmall])
              rfl rfl rfl
    refine ⟨hmain.1, hmain.2, ?_⟩
    intro _ _ _ _ _ _ heq _
    cases heq
  | addExternalIPs pid ips =>
    have hmain : PoolWF (poolStep st (.addExternalIPs pid ips)) ∧
        PoolINV (poolStep st (.addExternalIPs pid ips)) := by
      rcases hp : alookup st.pools pid with _ | p
      · have hst : poolStep st (.addExternalIPs pid ips) = st := by
          simp [poolStep, AddExternalIPs, hp]
        rw [hst]
        exact ⟨⟨hndP, hndM, hcons⟩, hinv⟩
      · rcases hloop : addExternalIPsLoop st p none ips with e | p'
        · have hst : poolStep st (.addExternalIPs pid ips) = st := by
            simp [poolStep, AddExternalIPs, hp, hloop]
          rw [hst]
          exact ⟨⟨hndP, hndM, hcons⟩, hinv⟩
        · obtain ⟨n, hF, hT, hID⟩ := addExternalIPsLoop_delta st ips p none p' hloop
          exact WF_INV_update_pool p' (n : Int)
            ⟨hndP, hndM, hcons⟩ hinv hp
            (by simp [poolStep, AddExternalIPs, hp, hloop])
            (by simp [poolStep, AddExternalIPs, hp, hloop])
            hF hT hID
    refine ⟨hmain.1, hmain.2, ?_⟩
    intro _ _ _ _ _ _ heq _
    cases heq
  | deleteSubnet pid sid =>
    have hmain : PoolWF (poolStep st (.deleteSubnet pid sid)) ∧
        PoolINV (poolStep st (.deleteSubnet pid sid)) := by
      rcases hp : alookup st.pools pid with _ | p
      · have hst : poolStep st (.deleteSubnet pid sid) = st := by
          simp [poolStep, DeleteSubnet, hp]
        rw [hst]
        exact ⟨⟨hndP, hndM, hcons⟩, hinv⟩
      · rcases hf : findFirstSubnet p.Subnets sid with _ | q
        · have hst : poolStep st (.deleteSubnet pid sid) = st := by
            simp [poolStep, DeleteSubnet, hp, hf]
          rw [hst]
          exact ⟨⟨hndP, hndM, hcons⟩, hinv⟩
        · obtain ⟨rest, sub⟩ := q
          by_cases hmap : subnetHasMappedAddr st.mappedIPs sub
          · have hst : poolStep st (.deleteSubnet pid sid) = st := by
              simp [poolStep, DeleteSubnet, hp, hf, hmap]
            rw [hst]
            exact ⟨⟨hndP, hndM, hcons⟩, hinv⟩
          · exact WF_INV_update_pool
              { p with TotalIPs := p.TotalIPs - ((2 : Int) ^ (32 - sub.ones) - 2),
                       Free := p.Free - ((2 : Int) ^ (32 - sub.ones) - 2),
                       Subnets := rest }
              (-((2 : Int) ^ (32 - sub.ones) - 2))
              ⟨hndP, hndM, hcons⟩ hinv hp
              (by simp [poolStep, DeleteSubnet, hp, hf, hmap])
              (by simp [poolStep, DeleteSubnet, hp, hf, hmap])
              (sub_eq_add_neg _ _) (sub_eq_add_neg _ _) rfl
    refine ⟨hmain.1, hmain.2, ?_⟩
    intro _ _ _ _ _ _ heq _
    cases heq
  | deleteExternalIP pid aid =>
    have hmain : PoolWF (poolStep st (.deleteExternalIP pid aid)) ∧
        PoolINV (poolStep st (.deleteExternalIP pid aid)) := by
      rcases hp : alookup st.pools pid with _ | p
      · have hst : poolStep st (.deleteExternalIP pid aid) = st := by
          simp [poolStep, DeleteExternalIP, hp]
        rw [hst]
        exact ⟨⟨hndP, hndM, hcons⟩, hinv⟩
      · rcases hf : findFirstIP p.IPs aid with _ | q
        · have hst : poolStep st (.deleteExternalIP pid aid) = st := by
            simp [poolStep, DeleteExternalIP, hp, hf]
          rw [hst]
          exact ⟨⟨hndP, hndM, hcons⟩, hinv⟩
        · obtain ⟨rest, extIP⟩ := q
          by_cases hmap : (alookup st.mappedIPs extIP.Address).isSome
          · have hst : poolStep st (.deleteExternalIP pid aid) = st := by
              simp [poolStep, DeleteExternalIP, hp, hf, hmap]
            rw [hst]
            exact ⟨⟨hndP, hndM, hcons⟩, hinv⟩
          · exact WF_INV_update_pool
              { p with TotalIPs := p.TotalIPs - 1, Free := p.Free - 1, IPs := rest }
              (-1)
              ⟨hndP, hndM, hcons⟩ hinv hp
              (by simp [poolStep, DeleteExternalIP, hp, hf, hmap])
              (by simp [poolStep, DeleteExternalIP, hp, hf, hmap])
              (sub_eq_add_neg _ _) (sub_eq_add_neg _ _) rfl
    refine ⟨hmain.1, hmain.2, ?_⟩
    intro _ _ _ _ _ _ heq _
    cases heq
  | mapExternalIP pid i ii t u =>
    rcases hp : alookup st.pools pid with _ | pool
    · have hst : poolStep st (.mapExternalIP pid i ii t u) = st := by
        simp [poolStep, MapExternalIP, hp]
      have hres : (MapExternalIP st pid i ii t u).2 = .error .poolNotFound := by
        simp [MapExternalIP, hp]
      rw [hst]
      refine ⟨⟨hndP, hndM, hcons⟩, hinv, ?_⟩
      intro _ _ _ _ _ _ heq hok
      cases heq
      rw [hres] at hok
      cases hok
    · by_cases hfree0 : pool.Free = 0
      · have hst : poolStep st (.mapExternalIP pid i ii t u) = st := by
          simp [poolStep, MapExternalIP, hp, hfree0]
        have hres : (MapExternalIP st pid i ii t u).2 = .error .poolEmpty := by
          simp [MapExternalIP, hp, hfree0]
        rw [hst]
        refine ⟨⟨hndP, hndM, hcons⟩, hinv, ?_⟩
        intro _ _ _ _ _ _ heq hok
        cases heq
        rw [hres] at hok
        cases hok
      · have hpid : pool.ID = pid := hcons (pid, pool) (mem_of_alookup_eq_some hp)
        have hmain : ∀ a : Nat, alookup st.mappedIPs a = none →
            (MapExternalIP st pid i ii t u).1 =
              { st with mappedIPs := ainsert st.mappedIPs a
                          ⟨u, a, ii, i, t, pool.ID, pool.Name⟩,
                        pools := ainsert st.pools pid
                          { pool with Free := pool.Free - 1 } } →
            PoolWF (MapExternalIP st pid i ii t u).1 ∧
            PoolINV (MapExternalIP st pid i ii t u).1 ∧
            alookup (MapExternalIP st pid i ii t u).1.pools pid =
              some { pool with Free := pool.Free - 1 } := by
          intro a hma hst
          rw [hst]
          refine ⟨⟨?_, ?_, ?_⟩, ?_, ?_⟩
          · exact nodup_keys_ainsert _ _ hndP
          · exact nodup_keys_ainsert _ _ hndM
          · exact consistent_ainsert hndP hcons hp rfl
          · intro pr hpr
            have hcnt : ∀ q, countPool (ainsert st.mappedIPs a
                ⟨u, a, ii, i, t, pool.ID, pool.Name⟩) q =
                countPool st.mappedIPs q + (if pool.ID = q then 1 else 0) :=
              fun q => countPool_ainsert_fresh _ q hma
            rcases mem_ainsert_strong hndP hpr with h | ⟨hmem, hne⟩
            · subst h
              have h0 := hinv (pid, pool) (mem_of_alookup_eq_some hp)
              simp only at h0 ⊢
              rw [hcnt pid, if_pos hpid]
              push_cast
              omega
            · have h0 := hinv pr hmem
              rw [hcnt pr.1, if_neg (fun hh : pool.ID = pr.1 => hne (hh.symm.trans hpid))]
              simpa using h0
          · simp [alookup_ainsert]
        rcases hA : firstFreePoolAddr st.mappedIPs pool.Subnets with _ | a
        · rcases hfind : pool.IPs.find? (fun ip => (alookup st.mappedIPs ip.Address).isNone)
            with _ | extIP
          · have hst : poolStep st (.mapExternalIP pid i ii t u) = st := by
              simp [poolStep, MapExternalIP, hp, hfree0, hA, hfind]
            have hres : (MapExternalIP st pid i ii t u).2 = .error .poolEmpty := by
              simp [MapExternalIP, hp, hfree0, hA, hfind]
            rw [hst]
            refine ⟨⟨hndP, hndM, hcons⟩, hinv, ?_⟩
            intro _ _ _ _ _ _ heq hok
            cases heq
            rw [hres] at hok
            cases hok
          · have hma : alookup st.mappedIPs extIP.Address = none := by
              have := List.find?_some hfind
              simpa using this
            have hst : (MapExternalIP st pid i ii t u).1 =
                { st with mappedIPs := ainsert st.mappedIPs extIP.Address
                            ⟨u, extIP.Address, ii, i, t, pool.ID, pool.Name⟩,
                          pools := ainsert st.pools pid
                            { pool with Free := pool.Free - 1 } } := by
              simp [MapExternalIP, hp, hfree0, hA, hfind]
            obtain ⟨hwf', hinv', hlook⟩ := hmain extIP.Address hma hst
            refine ⟨hwf', hinv', ?_⟩
            intro _ _ _ _ _ _ heq _
            cases heq
            exact ⟨pool, { pool with Free := pool.Free - 1 }, hp, hlook, rfl⟩
        · have hma : alookup st.mappedIPs a = none := firstFreePoolAddr_unmapped hA
          have hst : (MapExternalIP st pid i ii t u).1 =
              { st with mappedIPs := ainsert st.mappedIPs a
                          ⟨u, a, ii, i, t, pool.ID, pool.Name⟩,
                        pools := ainsert st.pools pid
                          { pool with Free := pool.Free - 1 } } := by
            simp [MapExternalIP, hp, hfree0, hA]
          obtain ⟨hwf', hinv', hlook⟩ := hmain a hma hst
          refine ⟨hwf', hinv', ?_⟩
          intro _ _ _ _ _ _ heq _
          cases heq
          exact ⟨pool, { pool with Free := pool.Free - 1 }, hp, hlook, rfl⟩
  | unMapExternalIP addr =>
    have hmain : PoolWF (poolStep st (.unMapExternalIP addr)) ∧
        PoolINV (poolStep st (.unMapExternalIP addr)) := by
      rcases hm : alookup st.mappedIPs addr with _ | m
      · have hst : poolStep st (.unMapExternalIP addr) = st := by
          simp [poolStep, UnMapExternalIP, hm]
        rw [hst]
        exact ⟨⟨hndP, hndM, hcons⟩, hinv⟩
      · rcases hp : alookup st.pools m.PoolID with _ | pool
        · have hst : poolStep st (.unMapExternalIP addr) = st := by
            simp [poolStep, UnMapExternalIP, hm, hp]
          rw [hst]
          exact ⟨⟨hndP, hndM, hcons⟩, hinv⟩
        · have hpid : pool.ID = m.PoolID := hcons (m.PoolID, pool) (mem_of_alookup_eq_some hp)
          have hst : poolStep st (.unMapExternalIP addr) =
              { st with mappedIPs := aerase st.mappedIPs addr,
                        pools := ainsert st.pools pool.ID
                          { pool with Free := pool.Free + 1 } } := by
            simp [poolStep, UnMapExternalIP, hm, hp]
          rw [hst]
          have hp' : alookup st.pools pool.ID = some pool := hpid ▸ hp
          refine ⟨⟨?_, ?_, ?_⟩, ?_⟩
          · exact nodup_keys_ainsert _ _ hndP
          · exact nodup_keys_aerase _ hndM
          · exact consistent_ainsert hndP hcons hp' rfl
          · show ∀ pr ∈ ainsert st.pools pool.ID { pool with Free := pool.Free + 1 },
              pr.2.Free = pr.2.TotalIPs - (countPool (aerase st.mappedIPs addr) pr.1 : Int)
            intro pr hpr
            have hcnt : ∀ q, countPool st.mappedIPs q =
                countPool (aerase st.mappedIPs addr) q + (if m.PoolID = q then 1 else 0) :=
              fun q => countPool_aerase q hndM hm
            rcases mem_ainsert_strong hndP hpr with h | ⟨hmem, hne⟩
            · subst h
              have h0 := hinv (m.PoolID, pool) (mem_of_alookup_eq_some hp)
              have hc := hcnt m.PoolID
              rw [if_pos rfl] at hc
              simp only at h0 ⊢
              rw [hpid]
              push_cast at h0 hc ⊢
              omega
            · have h0 := hinv pr hmem
              have hc := hcnt pr.1
              rw [if_neg (fun hh : m.PoolID = pr.1 => hne ((hpid.trans hh).symm))] at hc
              simp only [Nat.add_zero] at hc
              rw [hc] at h0
              exact h0
    refine ⟨hmain.1, hmain.2, ?_⟩
    intro _ _ _ _ _ _ heq _
    cases heq

/-- C3 witness: a pool holding `10.0.0.0/30` (2 usable hosts, 0 mapped)
satisfies the invariant, and it still holds after a `MapExternalIP`. -/
theorem pool_free_invariant_witness :
    PoolWF ⟨[("P", ⟨"P", "p", [⟨"s", 167772160, 30⟩], [], 2, 2⟩)], [],
            [⟨"s", 167772160, 30⟩], []⟩ ∧
    PoolINV ⟨[("P", ⟨"P", "p", [⟨"s", 167772160, 30⟩], [], 2, 2⟩)], [],
            [⟨"s", 167772160, 30⟩], []⟩ ∧
    PoolINV (poolStep ⟨[("P", ⟨"P", "p", [⟨"s", 167772160, 30⟩], [], 2, 2⟩)], [],
            [⟨"s", 167772160, 30⟩], []⟩ (.mapExternalIP "P" "i1" "10.1.1.1" "T" "u1")) :=
  ⟨by decide, by decide,
   (pool_free_invariant
      ⟨[("P", ⟨"P", "p", [⟨"s", 167772160, 30⟩], [], 2, 2⟩)], [],
       [⟨"s", 167772160, 30⟩], []⟩
      (.mapExternalIP "P" "i1" "10.1.1.1" "T" "u1")
      (by decide) (by decide) (fun pool h => by cases h)).2.1⟩

/-! ## Storage attachment reconciliation (`updateStorageAttachments`)

From `datastore.go`.  State under `attachLock`: `attachments` (attachment
ID -> `types.StorageAttachment`), the derived index `instanceVolumes`
(`(instanceID, volumeID)` -> attachment ID) and the block devices' states.
Attachment IDs are modelled as naturals drawn from a fresh-ID counter
standing in for `uuid.Generate()`; `db` calls are modelled as succeeding.
The first loop adds an attachment for every reported volume not yet
indexed (marking the device `InUse` when it can be fetched); the second
loop walks the values of `instanceVolumes` and, for each attachment of
this instance whose volume is no longer reported, marks the device
`Available` and deletes the attachment — unless fetching the device
fails, in which case the deletion is skipped (`continue`). -/

inductive BDState where
  | available
  | inUse
  | other (s : String)
deriving DecidableEq, Repr

/-- `types.StorageAttachment`. -/
structure StorageAttachment where
  InstanceID : String
  AID : Nat
  BlockID : String
deriving DecidableEq, Repr

/-- The Go zero value read for a missing attachments key. -/
def zeroAttachment : StorageAttachment := ⟨"", 0, ""⟩

structure StorState where
  attachments : List (Nat × StorageAttachment)
  instanceVolumes : List ((String × String) × Nat)
  devices : List (String × BDState)
  nextID : Nat
deriving DecidableEq, Repr

/-- One iteration of the first loop of `updateStorageAttachments`. -/
def addVolume (i : String) (s : StorState) (v : String) : StorState :=
  match alookup s.instanceVolumes (i, v) with
  | some _ => s
  | none =>
    let a : StorageAttachment := ⟨i, s.nextID, v⟩
    let atts := ainsert s.attachments s.nextID a
    let ivs := ainsert s.instanceVolumes (i, v) s.nextID
    match alookup s.devices v with
    | none =>
      { s with attachments := atts, instanceVolumes := ivs, nextID := s.nextID + 1 }
    | some _ =>
      { s with attachments := atts, instanceVolumes := ivs,
               devices := ainsert s.devices v .inUse, nextID := s.nextID + 1 }

/-- One iteration of the second loop, for one value `id` of
`instanceVolumes`. -/
def rmStep (i : String) (vols : List String) (s : StorState) (id : Nat) : StorState :=
  let a := (alookup s.attachments id).getD zeroAttachment
  if a.InstanceID = i ∧ vols.contains a.BlockID = false then
    match alookup s.devices a.BlockID with
    | none => s
    | some _ =>
      { s with devices := ainsert s.devices a.BlockID .available,
               attachments := aerase s.attachments id,
               instanceVolumes := aerase s.instanceVolumes (a.InstanceID, a.BlockID) }
  else s

def updateStorageAttachments (s : StorState) (instanceID : String)
    (volumes : List String) : StorState :=
  let s1 := volumes.foldl (addVolume instanceID) s
  (s1.instanceVolumes.map Prod.snd).foldl (rmStep instanceID volumes) s1

/-- Map-representation and linkage well-formedness of the attachment
caches: distinct keys, the spec's derived-index invariant
(`instanceVolumes[(i,v)] = id` iff the attachment `id` is `(i, id, v)`),
and the freshness of the ID counter. -/
def StorWF (s : StorState) : Prop :=
  (akeys s.instanceVolumes).Nodup ∧
  (akeys s.attachments).Nodup ∧
  (∀ k id, alookup s.instanceVolumes k = some id →
      alookup s.attachments id = some ⟨k.1, id, k.2⟩) ∧
  (∀ id a, alookup s.attachments id = some a → id < s.nextID)

theorem alookup_isSome_of_mem {κ ν : Type} [DecidableEq κ] {l : List (κ × ν)}
    {pr : κ × ν} (h : pr ∈ l) : (alookup l pr.1).isSome := by
  induction l with
  | nil => simp at h
  | cons p r ih =>
    obtain ⟨pk, pv⟩ := p
    by_cases hk : pk = pr.1
    · subst hk
      simp [alookup]
    · rcases List.mem_cons.mp h with h | h
      · exact absurd (congrArg Prod.fst h).symm hk
      · rw [alookup_cons_ne hk]
        exact ih h

instance : DecidablePred StorWF := fun s => by
  unfold StorWF
  have h1 : Decidable (∀ k id, alookup s.instanceVolumes k = some id →
      alookup s.attachments id = some ⟨k.1, id, k.2⟩) := by
    refine decidable_of_iff
      (∀ pr ∈ s.instanceVolumes, alookup s.instanceVolumes pr.1 = some pr.2 →
        alookup s.attachments pr.2 = some ⟨pr.1.1, pr.2, pr.1.2⟩) ⟨?_, ?_⟩
    · intro h k id hk
      exact h (k, id) (mem_of_alookup_eq_some hk) hk
    · intro h pr _ hpr
      exact h pr.1 pr.2 hpr
  have h2 : Decidable (∀ id a, alookup s.attachments id = some a → id < s.nextID) := by
    refine decidable_of_iff
      (∀ pr ∈ s.attachments, pr.1 < s.nextID) ⟨?_, ?_⟩
    · intro h id a hid
      exact h (id, a) (mem_of_alookup_eq_some hid)
    · intro h pr hpr
      rcases hlk : alookup s.attachments pr.1 with _ | w
      · exact absurd (alookup_isSome_of_mem hpr) (by simp [hlk])
      · exact h pr.1 w hlk
  exact instDecidableAnd

theorem addVolume_presence {i : String} {s : StorState} {v : String}
    (k : String × String) (h : (alookup s.instanceVolumes k).isSome) :
    (alookup (addVolume i s v).instanceVolumes k).isSome := by
  unfold addVolume
  rcases hiv : alookup s.instanceVolumes (i, v) with _ | id
  · rcases hdev : alookup s.devices v with _ | w <;>
      · simp only [alookup_ainsert]
        by_cases hk : (i, v) = k <;> simp [hk, h]
  · exact h

theorem addVolume_present {i : String} {s : StorState} (v : String) :
    (alookup (addVolume i s v).instanceVolumes (i, v)).isSome := by
  unfold addVolume
  rcases hiv : alookup s.instanceVolumes (i, v) with _ | id
  · rcases hdev : alookup s.devices v with _ | w <;> simp [alookup_ainsert]
  · simp [hiv]

theorem addVolume_WF {i : String} {s : StorState} {v : String}
    (hwf : StorWF s) : StorWF (addVolume i s v) := by
  obtain ⟨hndI, hndA, hW1, hW3⟩ := hwf
  unfold addVolume
  rcases hiv : alookup s.instanceVolumes (i, v) with _ | id
  · have hatt : alookup s.attachments s.nextID = none := by
      rcases hl : alookup s.attachments s.nextID with _ | a
      · rfl
      · exact absurd (hW3 _ _ hl) (lt_irrefl _)
    have hcore : StorWF
        { s with attachments := ainsert s.attachments s.nextID ⟨i, s.nextID, v⟩,
                 instanceVolumes := ainsert s.instanceVolumes (i, v) s.nextID,
                 nextID := s.nextID + 1 } := by
      refine ⟨nodup_keys_ainsert _ _ hndI, nodup_keys_ainsert _ _ hndA, ?_, ?_⟩
      · intro k id hk
        simp only [alookup_ainsert] at hk ⊢
        by_cases hkv : (i, v) = k
        · rw [if_pos hkv] at hk
          have hid : id = s.nextID := by simpa using hk.symm
          subst hid
          rw [if_pos rfl, ← hkv]
        · rw [if_neg hkv] at hk
          have hne : ¬ s.nextID = id := fun hh => by
            have := hW3 id _ (hW1 k id hk)
            omega
          rw [if_neg hne]
          exact hW1 k id hk
      · intro id a hid
        show id < s.nextID + 1
        simp only [alookup_ainsert] at hid
        by_cases hidn : s.nextID = id
        · omega
        · rw [if_neg hidn] at hid
          have := hW3 id a hid
          omega
    rcases hdev : alookup s.devices v with _ | w
    · exact hcore
    · exact ⟨hcore.1, hcore.2.1, hcore.2.2.1, hcore.2.2.2⟩
  · exact ⟨hndI, hndA, hW1, hW3⟩

theorem foldl_addVolume_WF {i : String} (vols : List String) :
    ∀ s : StorState, StorWF s → StorWF (vols.foldl (addVolume i) s) := by
  induction vols with
  | nil => exact fun s h => h
  | cons v rest ih => exact fun s h => ih _ (addVolume_WF h)

theorem foldl_addVolume_presence {i : String} (vols : List String) :
    ∀ (s : StorState) (k : String × String), (alookup s.instanceVolumes k).isSome →
      (alookup ((vols.foldl (addVolume i) s)).instanceVolumes k).isSome := by
  induction vols with
  | nil => exact fun s k h => h
  | cons v rest ih => exact fun s k h => ih _ k (addVolume_presence k h)

theorem foldl_addVolume_present {i : String} (vols : List String) :
    ∀ (s : StorState) (v : String), v ∈ vols →
      (alookup ((vols.foldl (addVolume i) s)).instanceVolumes (i, v)).isSome := by
  induction vols with
  | nil =>
    intro s v h
    simp at h
  | cons v0 rest ih =>
    intro s v h
    rcases List.mem_cons.mp h with h | h
    · subst h
      exact foldl_addVolume_presence rest _ _ (addVolume_present v)
    · exact ih _ v h

theorem foldl_addVolume_id {i : String} (vols : List String) :
    ∀ s : StorState, (∀ v ∈ vols, (alookup s.instanceVolumes (i, v)).isSome) →
      vols.foldl (addVolume i) s = s := by
  induction vols with
  | nil => exact fun s _ => rfl
  | cons v rest ih =>
    intro s h
    have hv : addVolume i s v = s := by
      unfold addVolume
      rcases hiv : alookup s.instanceVolumes (i, v) with _ | id
      · exact absurd (h v (List.mem_cons_self v rest)) (by simp [hiv])
      · rfl
    rw [List.foldl_cons, hv]
    exact ih s fun v' hv' => h v' (List.mem_cons_of_mem _ hv')

theorem StorWF_unique {s : StorState} (hwf : StorWF s) {k k' : String × String}
    {id : Nat} (h : alookup s.instanceVolumes k = some id)
    (h' : alookup s.instanceVolumes k' = some id) : k = k' := by
  have e1 := hwf.2.2.1 k id h
  have e2 := hwf.2.2.1 k' id h'
  have hh : (⟨k.1, id, k.2⟩ : StorageAttachment) = ⟨k'.1, id, k'.2⟩ := by
    have := e1.symm.trans e2
    simpa using this
  have h1 : k.1 = k'.1 := congrArg StorageAttachment.InstanceID hh
  have h2 : k.2 = k'.2 := congrArg StorageAttachment.BlockID hh
  exact Prod.ext h1 h2

theorem nodup_values_of_unique {κ ν : Type} [DecidableEq κ] [DecidableEq ν]
    {l : List (κ × ν)} (hnd : (akeys l).Nodup)
    (huniq : ∀ k k' v, alookup l k = some v → alookup l k' = some v → k = k') :
    (l.map Prod.snd).Nodup := by
  induction l with
  | nil => simp
  | cons p r ih =>
    obtain ⟨pk, pv⟩ := p
    simp only [akeys, List.map_cons, List.nodup_cons] at hnd ⊢
    have hndr : (akeys r).Nodup := hnd.2
    constructor
    · intro hmem
      obtain ⟨⟨qk, qv⟩, hq, hqv⟩ := List.mem_map.mp hmem
      have hqv' : qv = pv := hqv
      subst hqv'
      have hq1 : alookup r qk = some qv := alookup_eq_some_of_mem hndr hq
      have hqk_ne : pk ≠ qk := by
        intro hh
        exact hnd.1 (hh ▸ List.mem_map_of_mem Prod.fst hq)
      have hl1 : alookup ((pk, qv) :: r) qk = some qv := by
        rw [alookup_cons_ne hqk_ne]
        exact hq1
      have hl2 : alookup ((pk, qv) :: r) pk = some qv := alookup_cons_self pk qv r
      exact hqk_ne (huniq pk qk qv hl2 hl1)
    · apply ih hndr
      intro k k' v hk hk'
      have hkne : pk ≠ k := by
        intro hh
        subst hh
        exact hnd.1 (List.mem_map_of_mem Prod.fst (mem_of_alookup_eq_some hk))
      have hk'ne : pk ≠ k' := by
        intro hh
        subst hh
        exact hnd.1 (List.mem_map_of_mem Prod.fst (mem_of_alookup_eq_some hk'))
      exact huniq k k' v
        (by rw [alookup_cons_ne hkne]; exact hk)
        (by rw [alookup_cons_ne hk'ne]; exact hk')

/-- The reconciliation postcondition for one `instanceVolumes` key: an
attachment of this instance whose volume is not reported can only survive
if its block device cannot be fetched. -/
def GoodKey (i : String) (vols : List String) (s : StorState)
    (k : String × String) : Prop :=
  k.1 = i → vols.contains k.2 = false → alookup s.devices k.2 = none

theorem rmPass_spec (i : String) (vols : List String) :
    ∀ (L : List Nat) (t : StorState), StorWF t → L.Nodup →
      (∀ id ∈ L, ∃ k, alookup t.instanceVolumes k = some id) →
      (∀ k id, alookup t.instanceVolumes k = some id → id ∈ L ∨ GoodKey i vols t k) →
      StorWF (L.foldl (rmStep i vols) t) ∧
      (∀ k id, alookup (L.foldl (rmStep i vols) t).instanceVolumes k = some id →
          GoodKey i vols (L.foldl (rmStep i vols) t) k) ∧
      (∀ k : String × String, (alookup t.instanceVolumes k).isSome →
          vols.contains k.2 = true →
          (alookup (L.foldl (rmStep i vols) t).instanceVolumes k).isSome) := by
  intro L
  induction L with
  | nil =>
    intro t hwf _ _ hentries
    refine ⟨hwf, ?_, fun k h _ => h⟩
    intro k id hk
    rcases hentries k id hk with h | h
    · simp at h
    · exact h
  | cons id0 Lr ih =>
    intro t hwf hnd hintact hentries
    obtain ⟨hndI, hndA, hW1, hW3⟩ := hwf
    rw [List.nodup_cons] at hnd
    obtain ⟨k0, hk0⟩ := hintact id0 (List.mem_cons_self id0 Lr)
    have ha : alookup t.attachments id0 = some ⟨k0.1, id0, k0.2⟩ := hW1 k0 id0 hk0
    have huniq0 : ∀ k id, alookup t.instanceVolumes k = some id → id = id0 → k = k0 := by
      intro k id hk hid
      subst hid
      exact StorWF_unique ⟨hndI, hndA, hW1, hW3⟩ hk hk0
    have heval : rmStep i vols t id0 =
        if (⟨k0.1, id0, k0.2⟩ : StorageAttachment).InstanceID = i ∧
            vols.contains (⟨k0.1, id0, k0.2⟩ : StorageAttachment).BlockID = false then
          match alookup t.devices (⟨k0.1, id0, k0.2⟩ : StorageAttachment).BlockID with
          | none => t
          | some _ =>
            { t with devices := ainsert t.devices
                       (⟨k0.1, id0, k0.2⟩ : StorageAttachment).BlockID .available,
                     attachments := aerase t.attachments id0,
                     instanceVolumes := aerase t.instanceVolumes
                       ((⟨k0.1, id0, k0.2⟩ : StorageAttachment).InstanceID,
                        (⟨k0.1, id0, k0.2⟩ : StorageAttachment).BlockID) }
        else t := by
      unfold rmStep
      rw [ha]
      rfl
    by_cases hcond : k0.1 = i ∧ vols.contains k0.2 = false
    · rcases hdev : alookup t.devices k0.2 with _ | w
      · -- device cannot be fetched: the loop body continues, no change
        have hstep : rmStep i vols t id0 = t := by
          rw [heval, if_pos hcond, hdev]
        rw [List.foldl_cons, hstep]
        apply ih t ⟨hndI, hndA, hW1, hW3⟩ hnd.2
          (fun id hid => hintact id (List.mem_cons_of_mem _ hid))
        intro k id hk
        rcases hentries k id hk with h | h
        · rcases List.mem_cons.mp h with h | h
          · right
            have hkk0 : k = k0 := huniq0 k id hk h
            subst hkk0
            intro _ _
            exact hdev
          · exact Or.inl h
        · exact Or.inr h
      · -- the attachment is removed and the device set Available
        have hstep : rmStep i vols t id0 =
            { t with devices := ainsert t.devices k0.2 .available,
                     attachments := aerase t.attachments id0,
                     instanceVolumes := aerase t.instanceVolumes k0 } := by
          rw [heval, if_pos hcond, hdev]
        rw [List.foldl_cons, hstep]
        have hivlook : ∀ k : String × String,
            alookup (aerase t.instanceVolumes k0) k =
              if k0 = k then none else alookup t.instanceVolumes k :=
          fun k => alookup_aerase t.instanceVolumes k0 k
        have hattlook : ∀ id : Nat,
            alookup (aerase t.attachments id0) id =
              if id0 = id then none else alookup t.attachments id :=
          fun id => alookup_aerase t.attachments id0 id
        have hne_of_some : ∀ k id, alookup (aerase t.instanceVolumes k0) k = some id →
            k0 ≠ k ∧ alookup t.instanceVolumes k = some id ∧ id ≠ id0 := by
          intro k id hk
          rw [hivlook k] at hk
          by_cases hkk : k0 = k
          · rw [if_pos hkk] at hk
            cases hk
          · rw [if_neg hkk] at hk
            refine ⟨hkk, hk, ?_⟩
            intro hid
            exact hkk (huniq0 k id hk hid).symm
        have hwf2 : StorWF
            { t with devices := ainsert t.devices k0.2 .available,
                     attachments := aerase t.attachments id0,
                     instanceVolumes := aerase t.instanceVolumes k0 } := by
          refine ⟨nodup_keys_aerase _ hndI, nodup_keys_aerase _ hndA, ?_, ?_⟩
          · intro k id hk
            obtain ⟨hkk, hold, hidne⟩ := hne_of_some k id hk
            show alookup (aerase t.attachments id0) id = _
            rw [hattlook id, if_neg (fun hh => hidne hh.symm)]
            exact hW1 k id hold
          · intro id a hid
            show id < t.nextID
            rw [hattlook id] at hid
            by_cases hii : id0 = id
            · rw [if_pos hii] at hid
              cases hid
            · rw [if_neg hii] at hid
              exact hW3 id a hid
        have hintact2 : ∀ id ∈ Lr, ∃ k,
            alookup (aerase t.instanceVolumes k0) k = some id := by
          intro id hid
          obtain ⟨k, hk⟩ := hintact id (List.mem_cons_of_mem _ hid)
          have hidne : id ≠ id0 := fun hh => hnd.1 (hh ▸ hid)
          have hkk0 : k0 ≠ k := by
            intro hh
            subst hh
            have h' : id0 = id := by
              have := hk0.symm.trans hk
              simpa using this
            exact hidne h'.symm
          exact ⟨k, by rw [hivlook k, if_neg hkk0]; exact hk⟩
        have hentries2 : ∀ k id, alookup (aerase t.instanceVolumes k0) k = some id →
            id ∈ Lr ∨ GoodKey i vols
              { t with devices := ainsert t.devices k0.2 .available,
                       attachments := aerase t.attachments id0,
                       instanceVolumes := aerase t.instanceVolumes k0 } k := by
          intro k id hk
          obtain ⟨hkk, hold, hidne⟩ := hne_of_some k id hk
          rcases hentries k id hold with h | h
          · rcases List.mem_cons.mp h with h | h
            · exact absurd h hidne
            · exact Or.inl h
          · right
            intro h1 h2
            have hdn := h h1 h2
            show alookup (ainsert t.devices k0.2 .available) k.2 = none
            rw [alookup_ainsert]
            have hk2 : ¬ k0.2 = k.2 := by
              intro hh
              rw [hh] at hdev
              rw [hdev] at hdn
              cases hdn
            rw [if_neg hk2]
            exact hdn
        obtain ⟨ihWF, ihGood, ihPres⟩ := ih
          { t with devices := ainsert t.devices k0.2 .available,
                   attachments := aerase t.attachments id0,
                   instanceVolumes := aerase t.instanceVolumes k0 }
          hwf2 hnd.2 hintact2 hentries2
        refine ⟨ihWF, ihGood, ?_⟩
        intro k hk hv
        apply ihPres k ?_ hv
        show (alookup (aerase t.instanceVolumes k0) k).isSome
        rw [hivlook k]
        have hkk0 : ¬ k0 = k := by
          intro hh
          subst hh
          rw [hcond.2] at hv
          cases hv
        rw [if_neg hkk0]
        exact hk
    · -- condition false: no change for this entry
      have hstep : rmStep i vols t id0 = t := by
        rw [heval, if_neg hcond]
      rw [List.foldl_cons, hstep]
      apply ih t ⟨hndI, hndA, hW1, hW3⟩ hnd.2
        (fun id hid => hintact id (List.mem_cons_of_mem _ hid))
      intro k id hk
      rcases hentries k id hk with h | h
      · rcases List.mem_cons.mp h with h | h
        · right
          have hkk0 : k = k0 := huniq0 k id hk h
          subst hkk0
          intro h1 h2
          exact absurd ⟨h1, h2⟩ hcond
        · exact Or.inl h
      · exact Or.inr h

theorem foldl_rmStep_id (i : String) (vols : List String) (M : List Nat) :
    ∀ s : StorState, (∀ id ∈ M, rmStep i vols s id = s) →
      M.foldl (rmStep i vols) s = s := by
  induction M with
  | nil => exact fun s _ => rfl
  | cons id0 Mr ih =>
    intro s h
    rw [List.foldl_cons, h id0 (List.mem_cons_self id0 Mr)]
    exact ih s fun id hid => h id (List.mem_cons_of_mem _ hid)

theorem rmStep_id_of_good {i : String} {vols : List String} {s : StorState}
    (hwf : StorWF s)
    (hgood : ∀ k id, alookup s.instanceVolumes k = some id → GoodKey i vols s k)
    (id : Nat) (hid : id ∈ s.instanceVolumes.map Prod.snd) :
    rmStep i vols s id = s := by
  obtain ⟨⟨k, id'⟩, hmem, hsnd⟩ := List.mem_map.mp hid
  have hsnd' : id' = id := hsnd
  subst hsnd'
  have hk : alookup s.instanceVolumes k = some id' := alookup_eq_some_of_mem hwf.1 hmem
  have ha := hwf.2.2.1 k id' hk
  unfold rmStep
  rw [ha]
  simp only [Option.getD_some]
  by_cases hcond : k.1 = i ∧ vols.contains k.2 = false
  · rw [if_pos hcond]
    rw [hgood k id' hk hcond.1 hcond.2]
  · rw [if_neg hcond]

/-- C10: calling `updateStorageAttachments` twice in a row with the same
instance and volume list leaves the attachments, the `instanceVolumes`
index and the block-device states after the second call identical to their
values after the first call: the second call is a no-op. -/
theorem updateStorageAttachments_idempotent (s : StorState) (i : String)
    (vols : List String) (hwf : StorWF s) :
    updateStorageAttachments (updateStorageAttachments s i vols) i vols =
      updateStorageAttachments s i vols := by
  have hwf' : StorWF (vols.foldl (addVolume i) s) := foldl_addVolume_WF vols s hwf
  obtain ⟨hwf1, hgood1, hpres1⟩ := rmPass_spec i vols
    ((vols.foldl (addVolume i) s).instanceVolumes.map Prod.snd)
    (vols.foldl (addVolume i) s) hwf'
    (nodup_values_of_unique hwf'.1 (fun k k' v h h' => StorWF_unique hwf' h h'))
    (by
      intro id hid
      obtain ⟨⟨k, id'⟩, hmem, hsnd⟩ := List.mem_map.mp hid
      have hsnd' : id' = id := hsnd
      subst hsnd'
      exact ⟨k, alookup_eq_some_of_mem hwf'.1 hmem⟩)
    (fun k id h => Or.inl (List.mem_map_of_mem Prod.snd (mem_of_alookup_eq_some h)))
  have hP1 : ∀ v ∈ vols,
      (alookup (updateStorageAttachments s i vols).instanceVolumes (i, v)).isSome := by
    intro v hv
    exact hpres1 (i, v) (foldl_addVolume_present vols s v hv)
      (by simpa using hv)
  have hadd2 : vols.foldl (addVolume i) (updateStorageAttachments s i vols) =
      updateStorageAttachments s i vols :=
    foldl_addVolume_id vols _ hP1
  show ((vols.foldl (addVolume i) (updateStorageAttachments s i vols)).instanceVolumes.map
      Prod.snd).foldl (rmStep i vols) (vols.foldl (addVolume i) (updateStorageAttachments s i vols)) =
    updateStorageAttachments s i vols
  rw [hadd2]
  exact foldl_rmStep_id i vols _ _ fun id hid => rmStep_id_of_good hwf1 hgood1 id hid

/-- C10 witness: an instance with one stale attachment (volume `vOld`)
reconciled against the reported list `["v1"]`; the second call is a no-op. -/
theorem updateStorageAttachments_idempotent_witness :
    StorWF ⟨[(5, ⟨"inst", 5, "vOld"⟩)], [(("inst", "vOld"), 5)],
            [("vOld", .inUse), ("v1", .available)], 6⟩ ∧
    updateStorageAttachments
        (updateStorageAttachments
          ⟨[(5, ⟨"inst", 5, "vOld"⟩)], [(("inst", "vOld"), 5)],
           [("vOld", .inUse), ("v1", .available)], 6⟩ "inst" ["v1"]) "inst" ["v1"] =
      updateStorageAttachments
        ⟨[(5, ⟨"inst", 5, "vOld"⟩)], [(("inst", "vOld"), 5)],
         [("vOld", .inUse), ("v1", .available)], 6⟩ "inst" ["v1"] :=
  ⟨by decide,
   updateStorageAttachments_idempotent
     ⟨[(5, ⟨"inst", 5, "vOld"⟩)], [(("inst", "vOld"), 5)],
      [("vOld", .inUse), ("v1", .available)], 6⟩ "inst" ["v1"] (by decide)⟩
